import Mathlib

/-!
# Verification of the criterion-table table-building model

Shallow embedding of `table/src/lib.rs` and `table/src/formatter/gfm.rs` from the
criterion-table repository.  Rust `f64` magnitudes are modelled as rationals (`ℚ`),
Rust `FlexStr` as `String` (`String.length` counts characters, matching
`str::chars().count()`), and `IndexMap` as an insertion-ordered association list.
Fallible operations return `Except BuildError`; the out-of-bounds `Vec::insert`
panic in `ColumnInfoVec::update_column_info` is modelled by the distinguished
outcome `BuildError.panic_oob` (a Rust panic, not an `anyhow` error value).
-/

namespace CT

/-- Association-list lookup by key: first entry with the key wins
(models `IndexMap::get`). -/
def alookup {α : Type} : List (String × α) → String → Option α
  | [], _ => none
  | (k, v) :: rest, key => if k = key then some v else alookup rest key

/-- Replace the value of the first entry holding `key`, appending a fresh entry at the
end when the key is absent (models the `IndexMap` entry API: in-place mutation keeps
insertion order, vacant insertion appends). -/
def updateOrAppend {α : Type} : List (String × α) → String → α → List (String × α)
  | [], key, v => [(key, v)]
  | (k, v') :: rest, key, v =>
    if k = key then (key, v) :: rest else (k, v') :: updateOrAppend rest key v

/-- `Vec::insert`: insert an element at an index, shifting the tail.  Returns `none`
exactly when the index exceeds the length, which in Rust is a panic. -/
def insertAt {α : Type} : List α → Nat → α → Option (List α)
  | l, 0, a => some (a :: l)
  | [], _ + 1, _ => none
  | x :: xs, n + 1, a => (insertAt xs n a).map (x :: ·)

/-- Two-decimal fixed-point rendering of a rational; models Rust float formatting with
the format specifier asking for two decimal places, as used by `flex_fmt!`. -/
def fmt2dec (q : ℚ) : String :=
  let n : ℤ := round (q * 100)
  (if n < 0 then "-" else "") ++ toString (n.natAbs / 100) ++ "." ++
    (if n.natAbs % 100 < 10 then "0" else "") ++ toString (n.natAbs % 100)

/-- Build error taxonomy. The first three constructors carry the context named in the
corresponding `anyhow!` message; `panic_oob` models the Rust panic raised by the
out-of-bounds `Vec::insert` (it is not an error value in the source, the process
aborts). -/
inductive BuildError
  | malformed_id (id : String)
  | unrecognized_unit (unit : String)
  | duplicate_column (name : String)
  | panic_oob
deriving DecidableEq, Repr

/-- Time unit of a particular measurement (`TimeUnit` in `table/src/lib.rs`). -/
inductive TimeUnit
  | second (t : ℚ)
  | millisecond (t : ℚ)
  | microsecond (t : ℚ)
  | nanosecond (t : ℚ)
  | picosecond (t : ℚ)
deriving DecidableEq, Repr

/-- Body of `TimeUnit::try_new`.  The source recurses on the unit label, each
promotion step moving one unit closer to `"s"`, so the recursion depth is at most 4;
the explicit `depth` argument makes that recursion structural (the `depth = 0` base is
unreachable from `try_new`'s starting depth, see `try_new_go_depth_free`). -/
def try_new_go : Nat → ℚ → String → Except BuildError TimeUnit
  | depth + 1, time, unit =>
    if unit = "ms" ∧ time > 1000 then try_new_go depth (time / 1000) "s"
    else if unit = "us" ∧ time > 1000 then try_new_go depth (time / 1000) "ms"
    else if unit = "ns" ∧ time > 1000 then try_new_go depth (time / 1000) "us"
    else if unit = "ps" ∧ time > 1000 then try_new_go depth (time / 1000) "ns"
    else if unit = "s" then .ok (.second time)
    else if unit = "ms" then .ok (.millisecond time)
    else if unit = "us" then .ok (.microsecond time)
    else if unit = "ns" then .ok (.nanosecond time)
    else if unit = "ps" then .ok (.picosecond time)
    else .error (.unrecognized_unit unit)
  | 0, _, unit => .error (.unrecognized_unit unit)

/-- `TimeUnit::try_new`: promote the magnitude to the next-larger unit while it exceeds
1000, then tag it; unknown labels give the unrecognized-unit error. -/
def TimeUnit.try_new (time : ℚ) (unit : String) : Except BuildError TimeUnit :=
  try_new_go 5 time unit

/-- The magnitude stored in a `TimeUnit`. -/
def TimeUnit.time : TimeUnit → ℚ
  | .second t => t
  | .millisecond t => t
  | .microsecond t => t
  | .nanosecond t => t
  | .picosecond t => t

/-- The unit label a `TimeUnit` renders with (the suffix of its display form). -/
def TimeUnit.unit_label : TimeUnit → String
  | .second _ => "s"
  | .millisecond _ => "ms"
  | .microsecond _ => "us"
  | .nanosecond _ => "ns"
  | .picosecond _ => "ps"

/-- `TimeUnit::as_picoseconds`. -/
def TimeUnit.as_picoseconds : TimeUnit → ℚ
  | .second t => t * 1000000000000
  | .millisecond t => t * 1000000000
  | .microsecond t => t * 1000000
  | .nanosecond t => t * 1000
  | .picosecond t => t

/-- `impl ToFlexStr for TimeUnit`: two decimals plus the unit suffix. -/
def TimeUnit.to_flex_str (tu : TimeUnit) : String :=
  fmt2dec tu.time ++ " " ++ tu.unit_label

/-- `TimeUnit::width`: character count of the display form. -/
def TimeUnit.width (tu : TimeUnit) : Nat :=
  tu.to_flex_str.length

/-- `impl Div for TimeUnit`: both operands converted to picoseconds, then divided. -/
def TimeUnit.div (a b : TimeUnit) : ℚ :=
  a.as_picoseconds / b.as_picoseconds

/-- A comparison of a benchmark time to its per-row baseline
(newtype around `f64` in the source). -/
abbrev Comparison := ℚ

/-- `impl ToFlexStr for Comparison`: ratios above one render as "faster", below one
invert and render as "slower", exactly one renders with no qualifier word. -/
def Comparison.to_flex_str (c : Comparison) : String :=
  if c > 1 then fmt2dec c ++ "x faster"
  else if c < 1 then fmt2dec (1 / c) ++ "x slower"
  else fmt2dec c ++ "x"

/-- `Comparison::width`: character count of the display form. -/
def Comparison.width (c : Comparison) : Nat :=
  (Comparison.to_flex_str c).length

/-- Per-row column data (`Column` in the source). -/
structure Column where
  name : String
  time_unit : TimeUnit
  pct : Comparison
deriving DecidableEq, Repr

/-- `Column::new`: the comparison is the first column's time divided by this column's
time; the very first column of a row gets the fixed ratio 1. -/
def Column.new (name : String) (time_unit : TimeUnit) (first_col_time : Option TimeUnit) :
    Column :=
  { name := name
    time_unit := time_unit
    pct := match first_col_time with
      | some fct => TimeUnit.div fct time_unit
      | none => 1 }

/-- `Column::width`: measurement display width plus comparison display width. -/
def Column.width (c : Column) : Nat :=
  c.time_unit.width + Comparison.width c.pct

/-- A row: a name and insertion-ordered column data keyed by column name. -/
structure Row where
  name : String
  column_data : List (String × Column)
deriving DecidableEq, Repr

/-- `Row::new`. -/
def Row.new (name : String) : Row :=
  { name := name, column_data := [] }

/-- `Row::first_column_time`: the time of the first column seen for THIS row
(not for the whole table). -/
def Row.first_column_time (r : Row) : Option TimeUnit :=
  r.column_data.head?.map (fun p => p.2.time_unit)

/-- `Row::add_column`: duplicate names are an error, otherwise the new column
(carrying its comparison against the row's first column) is appended.  Also returns
the inserted column, as the source returns a reference to it. -/
def Row.add_column (r : Row) (name : String) (time_unit : TimeUnit) :
    Except BuildError (Row × Column) :=
  let first_time := r.first_column_time
  match alookup r.column_data name with
  | some _ => .error (.duplicate_column name)
  | none =>
    let col := Column.new name time_unit first_time
    .ok ({ r with column_data := r.column_data ++ [(name, col)] }, col)

/-- Column maximum width data (`ColumnInfo`). -/
structure ColumnInfo where
  name : String
  max_width : Nat
deriving DecidableEq, Repr

/-- `ColumnInfo::new`. -/
def ColumnInfo.new (name : String) (width : Nat) : ColumnInfo :=
  { name := name, max_width := width }

/-- `ColumnInfo::update_info`: widen the running maximum. -/
def ColumnInfo.update_info (ci : ColumnInfo) (width : Nat) : ColumnInfo :=
  { ci with max_width := max ci.max_width width }

/-- Functional form of `iter_mut().find(..)` followed by `update_info`: widen the
first entry carrying `name`, leave everything else untouched. -/
def widen_first : List ColumnInfo → String → Nat → List ColumnInfo
  | [], _, _ => []
  | ci :: rest, name, width =>
    if ci.name = name then ci.update_info width :: rest
    else ci :: widen_first rest name width

/-- Whether some entry carries the given column name
(`iter().find(|col| col.name == name).is_some()`). -/
def has_name : List ColumnInfo → String → Bool
  | [], _ => false
  | ci :: rest, name => if ci.name = name then true else has_name rest name

/-- `ColumnInfoVec::update_column_info`: widen the entry when the column name is
already registered (the index is not consulted), otherwise `Vec::insert` the new
entry at the index (`none` models the out-of-bounds panic). -/
def update_column_info (l : List ColumnInfo) (idx : Nat) (name : String) (width : Nat) :
    Option (List ColumnInfo) :=
  if has_name l name then some (widen_first l name width)
  else insertAt l idx (ColumnInfo.new name width)

/-- A table: ordered column info plus insertion-ordered rows keyed by row name. -/
structure Table where
  name : String
  columns : List ColumnInfo
  rows : List (String × Row)
deriving DecidableEq, Repr

/-- `Table::new`. -/
def Table.new (name : String) : Table :=
  { name := name, columns := [], rows := [] }

/-- `Table::add_column_data`: first reserve/widen the synthetic blank-named column 0
for the row label, then add the column to the row, then register its width at `idx`. -/
def Table.add_column_data (t : Table) (idx : Nat) (column_name row_name : String)
    (time : TimeUnit) : Except BuildError Table :=
  match update_column_info t.columns 0 "" row_name.length with
  | none => .error .panic_oob
  | some cols1 =>
    let row := (alookup t.rows row_name).getD (Row.new row_name)
    match row.add_column column_name time with
    | .error e => .error e
    | .ok rc =>
      let width := max rc.2.width column_name.length
      match update_column_info cols1 idx column_name width with
      | none => .error .panic_oob
      | some cols2 =>
        .ok { t with columns := cols2, rows := updateOrAppend t.rows row_name rc.1 }

/-- `ColumnPosition::next_idx`: the builder-scoped counter keyed by row name; an
occupied entry is incremented and returned, a vacant one starts at 1. -/
def next_idx (cp : List (String × Nat)) (row_name : String) : Nat × List (String × Nat) :=
  match alookup cp row_name with
  | some n => (n + 1, updateOrAppend cp row_name (n + 1))
  | none => (1, updateOrAppend cp row_name 1)

/-- The `typical` confidence interval of a raw benchmark record (only the fields the
core consumes: the estimate and its unit label). -/
structure ConfidenceInterval where
  estimate : ℚ
  unit : String
deriving DecidableEq, Repr

/-- Raw deserialized benchmark data; of the many JSON fields only the identifier and
`typical` are consumed by the builder. -/
structure BenchmarkComplete where
  id : String
  typical : ConfidenceInterval
deriving DecidableEq, Repr

/-- A raw record: a benchmark or a benchmark group (the latter carries fields the
builder never reads, so they are not modelled). -/
inductive RawCriterionData
  | benchmark (bm : BenchmarkComplete)
  | benchmark_group
deriving DecidableEq, Repr

/-- Rust `str::split('/')` over a character list: the list of segments between
slashes.  Splitting the empty string gives one empty segment, as in Rust. -/
def split_slash_chars : List Char → List (List Char)
  | [] => [[]]
  | c :: rest =>
    if c = '/' then [] :: split_slash_chars rest
    else
      match split_slash_chars rest with
      | g :: gs => (c :: g) :: gs
      | [] => [[c]]

/-- `id.split('/')` as a list of strings. -/
def split_slash (s : String) : List String :=
  (split_slash_chars s.data).map fun l => String.mk l

/-- Split of the hierarchical identifier into table, column and optional row name
(`none` exactly when there are fewer than two `/`-separated segments; extra segments
past the third are dropped, and a missing third segment gives the blank row name). -/
def parse_id (id : String) : Option (String × String × String) :=
  match split_slash id with
  | table_name :: column_name :: rest =>
    some (table_name, column_name, (match rest with | r :: _ => r | [] => ""))
  | _ => none

/-- Builder state: the tables under construction and the column-position counter. -/
structure BState where
  tables : List (String × Table)
  cp : List (String × Nat)
deriving DecidableEq, Repr

/-- The builder's starting state. -/
def init_state : BState :=
  { tables := [], cp := [] }

/-- One iteration of the loop in `CriterionTableData::build_from_raw_data`:
group records are skipped; a benchmark record is split, its table resolved or
created, its measurement normalized, the global counter bumped for its row name,
and the column added to the table. -/
def process_item (st : BState) (item : RawCriterionData) : Except BuildError BState :=
  match item with
  | .benchmark_group => .ok st
  | .benchmark bm =>
    match parse_id bm.id with
    | none => .error (.malformed_id bm.id)
    | some (table_name, column_name, row_name) =>
      let t0 := (alookup st.tables table_name).getD (Table.new table_name)
      match TimeUnit.try_new bm.typical.estimate bm.typical.unit with
      | .error e => .error e
      | .ok time_unit =>
        let p := next_idx st.cp row_name
        match t0.add_column_data p.1 column_name row_name time_unit with
        | .error e => .error e
        | .ok t1 => .ok { tables := updateOrAppend st.tables table_name t1, cp := p.2 }

/-- The record loop of `build_from_raw_data`: strictly sequential, the first error
aborts the whole build. -/
def build_loop (items : List RawCriterionData) (st : BState) : Except BuildError BState :=
  match items with
  | [] => .ok st
  | item :: rest =>
    match process_item st item with
    | .error e => .error e
    | .ok st' => build_loop rest st'

/-- Fully processed benchmark data (`CriterionTableData`). -/
structure CriterionTableData where
  tables : List (String × Table)
deriving DecidableEq, Repr

/-- `CriterionTableData::from_raw`. -/
def CriterionTableData.from_raw (raw_data : List RawCriterionData) :
    Except BuildError CriterionTableData :=
  match build_loop raw_data init_state with
  | .error e => .error e
  | .ok st => .ok { tables := st.tables }

/-- A benchmark record with the given identifier, typical estimate and unit label. -/
def mk_bench (id : String) (est : ℚ) (u : String) : RawCriterionData :=
  .benchmark { id := id, typical := { estimate := est, unit := u } }

/-- The spec's end-to-end example stream: two nanosecond measurements of rows of the
`Fib` table. -/
def sample_recs : List RawCriterionData :=
  [mk_bench "Fib/Recursive/10" 120 "ns", mk_bench "Fib/Iterative/10" 12 "ns"]

/-- The table `sample_recs` builds: label column width 2 (row name "10"),
`Recursive` at width 14 (9 for "120.00 ns" + 5 for "1.00x"), `Iterative` at
width 21 (8 for "12.00 ns" + 13 for "10.00x faster"). -/
def sample_table : Table :=
  { name := "Fib"
    columns := [ColumnInfo.new "" 2, ColumnInfo.new "Recursive" 14,
      ColumnInfo.new "Iterative" 21]
    rows := [("10",
      { name := "10"
        column_data :=
          [("Recursive", { name := "Recursive", time_unit := .nanosecond 120, pct := 1 }),
           ("Iterative", { name := "Iterative", time_unit := .nanosecond 12, pct := 10 })] })] }

/-- The table set `sample_recs` builds. -/
def sample_data : CriterionTableData :=
  { tables := [("Fib", sample_table)] }

/-- The full builder state after `sample_recs`: the row name "10" has been counted
twice. -/
def sample_state : BState :=
  { tables := sample_data.tables, cp := [("10", 2)] }

/-- A stream driving the global row-name counter past a second table's column-list
length: row `r` recurs twice in table `T`, then appears with a new column in the
fresh table `U`, so the counter yields insertion index 3 for a column list of
length 1. -/
def panic_recs : List RawCriterionData :=
  [mk_bench "T/A/r" 1 "ns", mk_bench "T/B/r" 1 "ns", mk_bench "U/C/r" 1 "ns"]

/-- A well-formed record whose column name is the empty string (identifier `T//r`):
the data column shares the synthetic label column's `ColumnInfo` entry. -/
def blankcol_recs : List RawCriterionData :=
  [mk_bench "T//r" 1 "ns"]

/-- The table `blankcol_recs` builds: the blank-named entry is widened to the data
width 12 ("1.00 ns" + "1.00x"), far beyond the longest row name "r". -/
def blankcol_table : Table :=
  { name := "T"
    columns := [ColumnInfo.new "" 12]
    rows := [("r",
      { name := "r"
        column_data := [("", { name := "", time_unit := .nanosecond 1, pct := 1 })] })] }

/-- The table set `blankcol_recs` builds. -/
def blankcol_data : CriterionTableData :=
  { tables := [("T", blankcol_table)] }

/-- A stream whose first record carries the unknown unit "xs" and whose second
record's identifier "bad" has a single segment: the unit error is reported, not the
malformed identifier. -/
def masked_recs : List RawCriterionData :=
  [mk_bench "A/B" 1 "xs", mk_bench "bad" 1 "ns"]

/-- A single-record stream failing with the unrecognized-unit error. -/
def unit_err_recs : List RawCriterionData :=
  [mk_bench "A/B" 1 "xs"]

/-- A benchmark record whose identifier has a single segment. -/
def bad_bench : BenchmarkComplete :=
  { id := "bad", typical := { estimate := 1, unit := "ns" } }

/-- `CriterionTableData::encode_key`: lowercase, spaces to underscores
(config lookup key). -/
def encode_key (s : String) : String :=
  (s.replace " " "_").toLower

/-! ## The GFM reference formatter (`formatter/gfm.rs`)

Each visitor method is modelled as a function from the accumulated output buffer and
its arguments to the new buffer. -/

/-- Extra characters consumed by bolding the row-label cell: the length of
the markup around one bold backticked item. -/
def FIRST_COL_EXTRA_WIDTH : Nat := "**``**".length

/-- Extra characters consumed by a used data cell's markup: backticks, parentheses,
bold markers, the marker glyph and its trailing space. -/
def USED_EXTRA_WIDTH : Nat := "() ``****XX".length

/-- `GFMFormatter::pad`: push `max_width - written + 1` copies of `ch`
(the `0..=remaining` loop is inclusive, to cover the trailing space).
In Rust `max_width - written` underflows when `written > max_width`; truncated
`Nat` subtraction stands in for that (the width theorems establish
`written ≤ max_width` wherever the formatter is invoked on built data). -/
def GFM.pad (buffer : String) (ch : Char) (max_width written : Nat) : String :=
  buffer ++ String.mk (List.replicate (max_width - written + 1) ch)

/-- `GFMFormatter::encode_link`: lowercase, spaces to hyphens (anchor encoding). -/
def GFM.encode_link (s : String) : String :=
  (s.replace " " "-").toLower

/-- Whether `pat` is a prefix of `s`, over characters. -/
def starts_with_chars : List Char → List Char → Bool
  | [], _ => true
  | _ :: _, [] => false
  | p :: ps, c :: cs => p = c && starts_with_chars ps cs

/-- Whether `pat` occurs contiguously in `s`, over characters. -/
def contains_chars (pat : List Char) : List Char → Bool
  | [] => starts_with_chars pat []
  | c :: rest => starts_with_chars pat (c :: rest) || contains_chars pat rest

/-- Models Rust `str::contains`: the pattern's characters occur contiguously. -/
def contains_sub (s pat : String) : Bool :=
  contains_chars pat.data s.data

/-- `Formatter::start` for GFM: title, optional top-level comment, table of
contents. -/
def GFM.start (buffer : String) (comment : Option String) (tables : List String) :
    String :=
  let b1 := buffer ++ "# Benchmarks\n\n"
  let b2 := match comment with
    | some c => b1 ++ c ++ "\n"
    | none => b1
  (tables.foldl (fun b t => b ++ "- [" ++ t ++ "](#" ++ GFM.encode_link t ++ ")\n") b2)
    ++ "\n"

/-- `Formatter::end` for GFM: the attribution footer. -/
def GFM.end_doc (buffer : String) : String :=
  buffer ++ "Made with [criterion-table](https://github.com/nu11ptr/criterion-table)\n"

/-- One header cell of the GFM header row: a backtick-quoted column name padded to
the column's maximum width plus the used-cell markup allowance. -/
def GFM.header_cell (buffer : String) (column : ColumnInfo) : String :=
  GFM.pad (buffer ++ "| `" ++ column.name ++ "`") ' ' (column.max_width + USED_EXTRA_WIDTH)
    (column.name.length + 2)

/-- One delimiter-row cell (left-justified markers padded with dashes). -/
def GFM.delim_cell (buffer : String) (column : ColumnInfo) : String :=
  GFM.pad (buffer ++ "|:") '-' (column.max_width + USED_EXTRA_WIDTH) 0

/-- `Formatter::start_table` for GFM: the table title, optional comment, header row
and delimiter row.  The source indexes `columns[0]` directly; the caller guarantees
at least one column, the default 0 only totalizes the model. -/
def GFM.start_table (buffer : String) (name : String) (comment : Option String)
    (columns : List ColumnInfo) : String :=
  let b1 := buffer ++ "## " ++ name ++ "\n\n"
  let b2 := match comment with
    | some c => b1 ++ c ++ "\n"
    | none => b1
  let first_col_max_width := ((columns.head?.map fun c => c.max_width).getD 0)
    + FIRST_COL_EXTRA_WIDTH
  let b3 := GFM.pad (b2 ++ "| ") ' ' first_col_max_width 0
  let b4 := ((columns.drop 1).foldl GFM.header_cell b3) ++ " |\n"
  let b5 := GFM.pad (b4 ++ "|:") '-' first_col_max_width 0
  ((columns.drop 1).foldl GFM.delim_cell b5) ++ " |\n"

/-- `Formatter::end_table` for GFM. -/
def GFM.end_table (buffer : String) : String :=
  buffer ++ "\n"

/-- `Formatter::start_row` for GFM: the bolded, backticked row label (blank labels
are rendered bare), padded to the label column's maximum width plus its markup
allowance. -/
def GFM.start_row (buffer : String) (name : String) (max_width : Nat) : String :=
  if name ≠ "" then
    GFM.pad (buffer ++ "| **`" ++ name ++ "`**") ' ' (max_width + FIRST_COL_EXTRA_WIDTH)
      (name.length + FIRST_COL_EXTRA_WIDTH)
  else
    GFM.pad (buffer ++ "| ") ' ' (max_width + FIRST_COL_EXTRA_WIDTH) 0

/-- `Formatter::end_row` for GFM. -/
def GFM.end_row (buffer : String) : String :=
  buffer ++ " |\n"

/-- `Formatter::used_column` for GFM: the backticked time plus the comparison,
bolded with a check marker when its text contains "faster", italicized with a cross
marker when it contains "slower", bare otherwise; padded to the column's maximum
width plus the used-cell markup allowance. -/
def GFM.used_column (buffer : String) (time : TimeUnit) (compare : Comparison)
    (max_width : Nat) : String :=
  let time_str := time.to_flex_str
  let speedup_str := Comparison.to_flex_str compare
  let data :=
    if contains_sub speedup_str "faster" then
      "`" ++ time_str ++ "` (✅ **" ++ speedup_str ++ "**)"
    else if contains_sub speedup_str "slower" then
      "`" ++ time_str ++ "` (❌ *" ++ speedup_str ++ "*)"
    else
      "`" ++ time_str ++ "` (" ++ speedup_str ++ ")"
  GFM.pad (buffer ++ "| " ++ data) ' ' (max_width + USED_EXTRA_WIDTH) data.length

/-- `Formatter::unused_column` for GFM: the fixed `N/A` placeholder, padded like a
used cell. -/
def GFM.unused_column (buffer : String) (max_width : Nat) : String :=
  let data := "`N/A`"
  GFM.pad (buffer ++ "| " ++ data) ' ' (max_width + USED_EXTRA_WIDTH) data.length

/-- `CriterionTableData::make_tables` instantiated at the GFM formatter: the fixed
visitor traversal of a finished table set (tables without populated columns are
skipped; each row renders its label then one used or unused cell per non-label
column in table order). -/
def make_tables (d : CriterionTableData) (comments : Option String)
    (table_comments : List (String × String)) : String :=
  let b0 := GFM.start "" comments (d.tables.map fun p => p.1)
  let b9 := d.tables.foldl
    (fun b p =>
      let table := p.2
      match table.columns.head? with
      | none => b
      | some first_col =>
        let comment := alookup table_comments (encode_key table.name)
        let b1 := GFM.start_table b table.name comment table.columns
        let b2 := table.rows.foldl
          (fun b q =>
            let row := q.2
            let b3 := GFM.start_row b row.name first_col.max_width
            let b4 := (table.columns.drop 1).foldl
              (fun b c =>
                match alookup row.column_data c.name with
                | some cd => GFM.used_column b cd.time_unit cd.pct c.max_width
                | none => GFM.unused_column b c.max_width)
              b3
            GFM.end_row b4)
          b1
        GFM.end_table b2)
    b0
  GFM.end_doc b9

/-- The row names of the benchmark records of a stream, in order (records that are
groups, or whose identifier fails to split, contribute nothing). -/
def stream_row_names (items : List RawCriterionData) : List String :=
  items.filterMap fun item =>
    match item with
    | .benchmark bm => (parse_id bm.id).map fun x => x.2.2
    | .benchmark_group => none

/-- Folding the builder-scoped counter over a list of row names. -/
def fold_counter (cp : List (String × Nat)) (rns : List String) : List (String × Nat) :=
  rns.foldl (fun c r => (next_idx c r).2) cp

/-! ## The table invariant established by the builder -/

/-- The width of the synthetic row-label column (column 0). -/
def label_width (t : Table) : Nat :=
  ((t.columns.head?.map fun ci => ci.max_width).getD 0)

/-- The maximum character length among the table's row names. -/
def max_row_name_len (t : Table) : Nat :=
  ((t.rows.map fun p => p.1.length).foldr max 0)

/-- No data column of the table carries the blank name (a blank column name would
share the synthetic label column's `ColumnInfo` entry). -/
def no_blank_column (t : Table) : Prop :=
  ∀ p ∈ t.rows, ∀ c ∈ p.2.column_data, c.1 ≠ ""

/-- The per-row comparison discipline: the first column's comparison is the fixed
ratio 1, and every later column's comparison is the first column's time divided by
its own time (in picoseconds, via `TimeUnit.div`). -/
def comparisons_ok : List (String × Column) → Prop
  | [] => True
  | (_, c0) :: rest =>
    c0.pct = 1 ∧ ∀ p ∈ rest, p.2.pct = TimeUnit.div c0.time_unit p.2.time_unit

/-- Everything the builder guarantees of each table it has touched. -/
structure TableInv (t : Table) : Prop where
  head_blank : ∃ w, t.columns.head? = some (ColumnInfo.new "" w)
  label_ge : ∀ p ∈ t.rows, p.1.length ≤ label_width t
  label_eq : no_blank_column t → label_width t = max_row_name_len t
  nodup_names : (t.columns.map fun ci => ci.name).Nodup
  name_le : ∀ ci ∈ t.columns, ci.name ≠ "" → ci.name.length ≤ ci.max_width
  covered : ∀ p ∈ t.rows, ∀ c ∈ p.2.column_data,
    ∃ ci ∈ t.columns, ci.name = c.1 ∧ c.2.width ≤ ci.max_width
  rows_ok : ∀ p ∈ t.rows, comparisons_ok p.2.column_data
  rows_ne : t.rows ≠ []
  row_name_key : ∀ p ∈ t.rows, p.2.name = p.1
  col_name_key : ∀ p ∈ t.rows, ∀ c ∈ p.2.column_data, c.2.name = c.1

/-- The builder's state invariant: every table in the map satisfies `TableInv`. -/
def state_inv (st : BState) : Prop :=
  ∀ p ∈ st.tables, TableInv p.2

/-! ## Time-unit normalization -/

/-- The five recognized unit labels. -/
def known_units : List String := ["s", "ms", "us", "ns", "ps"]

/-- A bare unit symbol, for stating the spec's normalization rule. -/
inductive SpecUnit
  | s
  | ms
  | us
  | ns
  | ps
deriving DecidableEq, Repr

/-- Distance of a unit from seconds (termination measure of the promotion chain). -/
def spec_rank : SpecUnit → Nat
  | .s => 0
  | .ms => 1
  | .us => 2
  | .ns => 3
  | .ps => 4

/-- Stated from the spec's words (the refinement target of the code's `try_new`):
"if the magnitude exceeds 1000 in units smaller than seconds, it is recursively
re-expressed in the next-larger unit by dividing by 1000 (ms→s, us→ms, ns→us,
ps→ns), applied repeatedly until magnitude ≤ 1000 or seconds is reached". -/
def normalize_spec : ℚ → SpecUnit → TimeUnit
  | t, .s => .second t
  | t, .ms => if t > 1000 then normalize_spec (t / 1000) .s else .millisecond t
  | t, .us => if t > 1000 then normalize_spec (t / 1000) .ms else .microsecond t
  | t, .ns => if t > 1000 then normalize_spec (t / 1000) .us else .nanosecond t
  | t, .ps => if t > 1000 then normalize_spec (t / 1000) .ns else .picosecond t
termination_by _ u => spec_rank u
decreasing_by all_goals decide

/-- The normal forms `try_new` produces: seconds are arbitrary, any smaller unit
carries a magnitude of at most 1000. -/
def is_normal : TimeUnit → Prop
  | .second _ => True
  | tu => tu.time ≤ 1000

/-! ## Claim-level predicates -/

/-- Every row's comparisons are derived from the row's own first column (claim C3). -/
def comparisons_derived (d : CriterionTableData) : Prop :=
  ∀ p ∈ d.tables, ∀ q ∈ p.2.rows, comparisons_ok q.2.column_data

/-- Every named column's registered width dominates its name length and every cell
it holds (claim C7). -/
def widths_ok (d : CriterionTableData) : Prop :=
  ∀ p ∈ d.tables, ∀ ci ∈ p.2.columns, ci.name ≠ "" →
    ci.name.length ≤ ci.max_width ∧
    ∀ q ∈ p.2.rows, ∀ c ∈ q.2.column_data, c.1 = ci.name →
      c.2.time_unit.width + Comparison.width c.2.pct ≤ ci.max_width

/-- Every cell the GFM formatter emits for a built table set occupies exactly the
column's registered maximum width plus the format's fixed markup allowance (plus the
three separator characters `"| "` and the trailing space), independent of the cell's
content (claim C9). -/
def gfm_cells_aligned (d : CriterionTableData) : Prop :=
  ∀ p ∈ d.tables,
    (∀ ci ∈ p.2.columns.drop 1,
      (∀ b, (GFM.header_cell b ci).length =
        b.length + (ci.max_width + USED_EXTRA_WIDTH + 3)) ∧
      (∀ b, (GFM.unused_column b ci.max_width).length =
        b.length + (ci.max_width + USED_EXTRA_WIDTH + 3)) ∧
      (∀ q ∈ p.2.rows, ∀ c, alookup q.2.column_data ci.name = some c →
        ∀ b, (GFM.used_column b c.time_unit c.pct ci.max_width).length =
          b.length + (ci.max_width + USED_EXTRA_WIDTH + 3))) ∧
    (∀ q ∈ p.2.rows, ∀ b, (GFM.start_row b q.2.name (label_width p.2)).length =
      b.length + (label_width p.2 + FIRST_COL_EXTRA_WIDTH + 3))

end CT

deriving instance DecidableEq for Except

namespace CT

/-! ## Association-list lemmas -/

theorem alookup_updateOrAppend {α : Type} (l : List (String × α)) (k : String) (v : α)
    (k' : String) :
    alookup (updateOrAppend l k v) k' = if k = k' then some v else alookup l k' := by
  induction l with
  | nil => simp [updateOrAppend, alookup]
  | cons p rest ih =>
    obtain ⟨k0, v0⟩ := p
    by_cases h0 : k0 = k
    · subst h0
      simp only [updateOrAppend, if_pos rfl, alookup]
      by_cases h1 : k0 = k' <;> simp [h1, alookup]
    · simp only [updateOrAppend, if_neg h0, alookup]
      by_cases h1 : k0 = k'
      · subst h1
        have : ¬ k = k0 := fun h => h0 h.symm
        simp [this]
      · simp [h1, ih]

theorem mem_updateOrAppend {α : Type} {l : List (String × α)} {k : String} {v : α}
    {p : String × α} : p ∈ updateOrAppend l k v → p = (k, v) ∨ p ∈ l := by
  induction l with
  | nil => intro h; simpa [updateOrAppend] using h
  | cons q rest ih =>
    intro h
    obtain ⟨k0, v0⟩ := q
    by_cases h0 : k0 = k
    · subst h0
      simp only [updateOrAppend, if_pos rfl] at h
      rcases List.mem_cons.mp h with h | h
      · exact Or.inl h
      · exact Or.inr (List.mem_cons_of_mem _ h)
    · simp only [updateOrAppend, if_neg h0] at h
      rcases List.mem_cons.mp h with h | h
      · exact Or.inr (h ▸ List.mem_cons_self _ _)
      · rcases ih h with h' | h'
        · exact Or.inl h'
        · exact Or.inr (List.mem_cons_of_mem _ h')

theorem updateOrAppend_ne_nil {α : Type} (l : List (String × α)) (k : String) (v : α) :
    updateOrAppend l k v ≠ [] := by
  cases l with
  | nil => simp [updateOrAppend]
  | cons q rest =>
    obtain ⟨k0, v0⟩ := q
    by_cases h0 : k0 = k <;> simp [updateOrAppend, h0]

theorem keys_updateOrAppend {α : Type} (l : List (String × α)) (k : String) (v : α) :
    (updateOrAppend l k v).map Prod.fst =
      if (alookup l k).isSome then l.map Prod.fst else l.map Prod.fst ++ [k] := by
  induction l with
  | nil => simp [updateOrAppend, alookup]
  | cons q rest ih =>
    obtain ⟨k0, v0⟩ := q
    by_cases h0 : k0 = k
    · subst h0
      simp [updateOrAppend, alookup]
    · have h0' : ¬ k0 = k := h0
      simp only [updateOrAppend, if_neg h0', alookup, List.map_cons, ih]
      by_cases hs : (alookup rest k).isSome <;> simp [hs, h0']

theorem alookup_mem {α : Type} {l : List (String × α)} {k : String} {v : α} :
    alookup l k = some v → (k, v) ∈ l := by
  induction l with
  | nil => intro h; simp [alookup] at h
  | cons q rest ih =>
    intro h
    obtain ⟨k0, v0⟩ := q
    by_cases h0 : k0 = k
    · subst h0
      simp only [alookup, if_pos] at h
      cases h
      exact List.mem_cons_self _ _
    · simp only [alookup, if_neg h0] at h
      exact List.mem_cons_of_mem _ (ih h)

/-! ## `insertAt` lemmas -/

theorem insertAt_perm {α : Type} :
    ∀ (l : List α) (i : Nat) (a : α) (l' : List α),
      insertAt l i a = some l' → l'.Perm (a :: l)
  | l, 0, a, l' => by
    intro h
    simp only [insertAt, Option.some.injEq] at h
    exact h ▸ List.Perm.refl _
  | [], i + 1, a, l' => by intro h; simp [insertAt] at h
  | x :: xs, i + 1, a, l' => by
    intro h
    simp only [insertAt, Option.map_eq_some'] at h
    obtain ⟨l'', h1, rfl⟩ := h
    exact ((insertAt_perm xs i a l'' h1).cons x).trans (List.Perm.swap a x xs)

theorem mem_insertAt {α : Type} {l : List α} {i : Nat} {a : α} {l' : List α}
    (h : insertAt l i a = some l') {x : α} (hx : x ∈ l') : x = a ∨ x ∈ l := by
  have := (insertAt_perm l i a l' h).mem_iff.mp hx
  simpa using this

theorem self_mem_insertAt {α : Type} {l : List α} {i : Nat} {a : α} {l' : List α}
    (h : insertAt l i a = some l') : a ∈ l' :=
  (insertAt_perm l i a l' h).mem_iff.mpr (List.mem_cons_self _ _)

theorem mem_of_mem_insertAt {α : Type} {l : List α} {i : Nat} {a : α} {l' : List α}
    (h : insertAt l i a = some l') {x : α} (hx : x ∈ l) : x ∈ l' :=
  (insertAt_perm l i a l' h).mem_iff.mpr (List.mem_cons_of_mem _ hx)

theorem insertAt_succ_head {α : Type} {l : List α} {i : Nat} {a : α} {l' : List α}
    (h : insertAt l (i + 1) a = some l') : l'.head? = l.head? := by
  cases l with
  | nil => simp [insertAt] at h
  | cons x xs =>
    simp only [insertAt, Option.map_eq_some'] at h
    obtain ⟨l'', _, rfl⟩ := h
    rfl

/-! ## `has_name`, `widen_first` and `update_column_info` lemmas -/

theorem has_name_iff (l : List ColumnInfo) (n : String) :
    has_name l n = true ↔ ∃ ci ∈ l, ci.name = n := by
  induction l with
  | nil => simp [has_name]
  | cons ci rest ih =>
    by_cases h0 : ci.name = n <;> simp [has_name, h0, ih]

theorem widen_first_names (l : List ColumnInfo) (n : String) (w : Nat) :
    (widen_first l n w).map (fun ci => ci.name) = l.map fun ci => ci.name := by
  induction l with
  | nil => rfl
  | cons ci rest ih =>
    by_cases h0 : ci.name = n <;> simp [widen_first, h0, ColumnInfo.update_info, ih]

theorem mem_widen_first {l : List ColumnInfo} {n : String} {w : Nat} {ci' : ColumnInfo} :
    ci' ∈ widen_first l n w →
    ∃ ci ∈ l, ci'.name = ci.name ∧ ci.max_width ≤ ci'.max_width ∧
      ci'.max_width ≤ max ci.max_width w := by
  induction l with
  | nil => intro h; simp [widen_first] at h
  | cons c0 rest ih =>
    intro h
    by_cases h0 : c0.name = n
    · simp only [widen_first, if_pos h0] at h
      rcases List.mem_cons.mp h with h | h
      · exact ⟨c0, List.mem_cons_self _ _, by
          simp [h, ColumnInfo.update_info, le_max_left]⟩
      · exact ⟨ci', List.mem_cons_of_mem _ h, rfl, le_refl _, le_max_left _ _⟩
    · simp only [widen_first, if_neg h0] at h
      rcases List.mem_cons.mp h with h | h
      · exact ⟨c0, List.mem_cons_self _ _, by simp [h, le_max_left]⟩
      · obtain ⟨ci, hci, h1, h2, h3⟩ := ih h
        exact ⟨ci, List.mem_cons_of_mem _ hci, h1, h2, h3⟩

theorem widen_first_mono {l : List ColumnInfo} {n : String} {w : Nat} {ci : ColumnInfo} :
    ci ∈ l → ∃ ci' ∈ widen_first l n w, ci'.name = ci.name ∧
      ci.max_width ≤ ci'.max_width := by
  induction l with
  | nil => intro h; simp at h
  | cons c0 rest ih =>
    intro h
    by_cases h0 : c0.name = n
    · rcases List.mem_cons.mp h with h | h
      · subst h
        exact ⟨ci.update_info w, by
          simp [widen_first, h0, ColumnInfo.update_info, le_max_left]⟩
      · exact ⟨ci, by simp [widen_first, h0, h]⟩
    · rcases List.mem_cons.mp h with h | h
      · subst h
        exact ⟨ci, by simp [widen_first, h0]⟩
      · obtain ⟨ci', hci', h1, h2⟩ := ih h
        exact ⟨ci', by simp [widen_first, h0, hci'], h1, h2⟩

theorem widen_first_covers {l : List ColumnInfo} {n : String} {w : Nat} :
    has_name l n = true →
    ∃ ci' ∈ widen_first l n w, ci'.name = n ∧ w ≤ ci'.max_width := by
  induction l with
  | nil => intro h; simp [has_name] at h
  | cons c0 rest ih =>
    intro h
    by_cases h0 : c0.name = n
    · exact ⟨c0.update_info w, by
        simp [widen_first, h0, ColumnInfo.update_info, le_max_right]⟩
    · simp only [has_name, if_neg h0] at h
      obtain ⟨ci', hci', h1, h2⟩ := ih h
      exact ⟨ci', by simp [widen_first, h0, hci'], h1, h2⟩

theorem widen_first_head (l : List ColumnInfo) (n : String) (w : Nat) :
    (widen_first l n w).head? = l.head?.map fun c0 =>
      if c0.name = n then c0.update_info w else c0 := by
  cases l with
  | nil => rfl
  | cons c0 rest => by_cases h0 : c0.name = n <;> simp [widen_first, h0]

theorem uci_mem {l : List ColumnInfo} {idx : Nat} {n : String} {w : Nat}
    {l' : List ColumnInfo} (h : update_column_info l idx n w = some l')
    {ci' : ColumnInfo} (hci' : ci' ∈ l') :
    (∃ ci ∈ l, ci'.name = ci.name ∧ ci.max_width ≤ ci'.max_width) ∨
      ci' = ColumnInfo.new n w := by
  unfold update_column_info at h
  by_cases hn : has_name l n = true
  · rw [if_pos hn] at h
    cases h
    obtain ⟨ci, hci, h1, h2, _⟩ := mem_widen_first hci'
    exact Or.inl ⟨ci, hci, h1, h2⟩
  · rw [if_neg hn] at h
    rcases mem_insertAt h hci' with h' | h'
    · exact Or.inr h'
    · exact Or.inl ⟨ci', h', rfl, le_refl _⟩

theorem uci_mono {l : List ColumnInfo} {idx : Nat} {n : String} {w : Nat}
    {l' : List ColumnInfo} (h : update_column_info l idx n w = some l')
    {ci : ColumnInfo} (hci : ci ∈ l) :
    ∃ ci' ∈ l', ci'.name = ci.name ∧ ci.max_width ≤ ci'.max_width := by
  unfold update_column_info at h
  by_cases hn : has_name l n = true
  · rw [if_pos hn] at h
    cases h
    exact widen_first_mono hci
  · rw [if_neg hn] at h
    exact ⟨ci, mem_of_mem_insertAt h hci, rfl, le_refl _⟩

theorem uci_covers {l : List ColumnInfo} {idx : Nat} {n : String} {w : Nat}
    {l' : List ColumnInfo} (h : update_column_info l idx n w = some l') :
    ∃ ci' ∈ l', ci'.name = n ∧ w ≤ ci'.max_width := by
  unfold update_column_info at h
  by_cases hn : has_name l n = true
  · rw [if_pos hn] at h
    cases h
    exact widen_first_covers hn
  · rw [if_neg hn] at h
    exact ⟨ColumnInfo.new n w, self_mem_insertAt h, rfl, le_refl _⟩

theorem uci_nodup {l : List ColumnInfo} {idx : Nat} {n : String} {w : Nat}
    {l' : List ColumnInfo} (h : update_column_info l idx n w = some l')
    (hnd : (l.map fun ci => ci.name).Nodup) : (l'.map fun ci => ci.name).Nodup := by
  unfold update_column_info at h
  by_cases hn : has_name l n = true
  · rw [if_pos hn] at h
    cases h
    rw [widen_first_names]
    exact hnd
  · rw [if_neg hn] at h
    have hperm : (l'.map fun ci => ci.name).Perm
        ((ColumnInfo.new n w :: l).map fun ci => ci.name) :=
      (insertAt_perm _ _ _ _ h).map _
    refine hperm.nodup_iff.mpr ?_
    simp only [List.map_cons, List.nodup_cons]
    refine ⟨?_, hnd⟩
    intro hmem
    apply hn
    rw [has_name_iff]
    obtain ⟨ci, hci, hname⟩ := List.mem_map.mp hmem
    exact ⟨ci, hci, hname⟩

theorem uci_head {l : List ColumnInfo} {idx : Nat} {n : String} {w : Nat}
    {l' : List ColumnInfo} (h : update_column_info l (idx + 1) n w = some l') :
    l'.head? = l.head?.map fun c0 => if c0.name = n then c0.update_info w else c0 := by
  unfold update_column_info at h
  by_cases hn : has_name l n = true
  · rw [if_pos hn] at h
    cases h
    exact widen_first_head l n w
  · rw [if_neg hn] at h
    rw [insertAt_succ_head h]
    cases l with
    | nil => simp [insertAt] at h
    | cons c0 rest =>
      have h0 : ¬ c0.name = n := by
        intro h0
        exact hn (by simp [has_name, h0])
      simp [h0]

/-- Evaluation of the blank-column reservation (`update_column_info(0, "", w)`) on an
empty column list: the blank entry is created at index 0. -/
theorem uci_zero_blank_nil (w : Nat) :
    update_column_info [] 0 "" w = some [ColumnInfo.new "" w] := rfl

/-- Evaluation of the blank-column reservation on a list headed by the blank entry:
that entry is widened in place. -/
theorem uci_zero_blank_cons (w0 w : Nat) (tl : List ColumnInfo) :
    update_column_info (ColumnInfo.new "" w0 :: tl) 0 "" w =
      some (ColumnInfo.new "" (max w0 w) :: tl) := by
  simp [update_column_info, has_name, widen_first, ColumnInfo.update_info, ColumnInfo.new]

/-! ## Counter lemmas -/

theorem next_idx_fst_pos (cp : List (String × Nat)) (r : String) :
    1 ≤ (next_idx cp r).1 := by
  unfold next_idx
  cases alookup cp r <;> simp

theorem alookup_fold_counter :
    ∀ (rns : List String) (cp : List (String × Nat)) (r : String),
      alookup (fold_counter cp rns) r =
        match alookup cp r with
        | some n => some (n + rns.count r)
        | none => if rns.count r = 0 then none else some (rns.count r)
  | [], cp, r => by
    simp only [fold_counter, List.foldl_nil, List.count_nil]
    cases alookup cp r <;> simp
  | x :: xs, cp, r => by
    have step : fold_counter cp (x :: xs) = fold_counter (next_idx cp x).2 xs := rfl
    rw [step, alookup_fold_counter xs]
    have hl : alookup (next_idx cp x).2 r =
        if x = r then some ((alookup cp x).getD 0 + 1) else alookup cp r := by
      unfold next_idx
      cases hcp : alookup cp x <;> simp [alookup_updateOrAppend, hcp]
    rw [hl]
    by_cases hx : x = r
    · subst hx
      rw [if_pos rfl]
      cases hcp : alookup cp x with
      | some n =>
        simp only [hcp, Option.getD_some, List.count_cons, Option.some.injEq]
        simp
        omega
      | none =>
        simp only [hcp, Option.getD_none, List.count_cons]
        simp [Nat.add_comm]
    · rw [if_neg hx]
      have hc : List.count r (x :: xs) = List.count r xs := by
        simp [List.count_cons, hx]
      rw [hc]

/-! ## Characterizations of the builder's steps -/

theorem add_column_ok {r : Row} {cn : String} {tu : TimeUnit} {rc : Row × Column}
    (h : Row.add_column r cn tu = .ok rc) :
    alookup r.column_data cn = none ∧
      rc.2 = Column.new cn tu r.first_column_time ∧
      rc.1 = { r with column_data := r.column_data ++ [(cn, rc.2)] } := by
  unfold Row.add_column at h
  cases hl : alookup r.column_data cn with
  | some c => rw [hl] at h; cases h
  | none =>
    rw [hl] at h
    cases h
    exact ⟨rfl, rfl, rfl⟩

theorem add_column_data_ok {t : Table} {idx : Nat} {cn rn : String} {tu : TimeUnit}
    {t' : Table} (h : Table.add_column_data t idx cn rn tu = .ok t') :
    ∃ cols1 rc cols2,
      update_column_info t.columns 0 "" rn.length = some cols1 ∧
      Row.add_column ((alookup t.rows rn).getD (Row.new rn)) cn tu = .ok rc ∧
      update_column_info cols1 idx cn (max rc.2.width cn.length) = some cols2 ∧
      t' = { t with columns := cols2, rows := updateOrAppend t.rows rn rc.1 } := by
  unfold Table.add_column_data at h
  cases h1 : update_column_info t.columns 0 "" rn.length with
  | none => rw [h1] at h; cases h
  | some cols1 =>
    rw [h1] at h
    dsimp only [] at h
    cases h2 : Row.add_column ((alookup t.rows rn).getD (Row.new rn)) cn tu with
    | error e => rw [h2] at h; cases h
    | ok rc =>
      rw [h2] at h
      dsimp only [] at h
      cases h3 : update_column_info cols1 idx cn (max rc.2.width cn.length) with
      | none => rw [h3] at h; cases h
      | some cols2 =>
        rw [h3] at h
        cases h
        exact ⟨cols1, rc, cols2, rfl, rfl, h3, rfl⟩

theorem process_item_ok {st : BState} {item : RawCriterionData} {st' : BState}
    (h : process_item st item = .ok st') :
    (item = .benchmark_group ∧ st' = st) ∨
      ∃ bm tn cn rn tu t1, item = .benchmark bm ∧
        parse_id bm.id = some (tn, cn, rn) ∧
        TimeUnit.try_new bm.typical.estimate bm.typical.unit = .ok tu ∧
        Table.add_column_data ((alookup st.tables tn).getD (Table.new tn))
          (next_idx st.cp rn).1 cn rn tu = .ok t1 ∧
        st' = ⟨updateOrAppend st.tables tn t1, (next_idx st.cp rn).2⟩ := by
  cases item with
  | benchmark_group =>
    simp only [process_item] at h
    cases h
    exact Or.inl ⟨rfl, rfl⟩
  | benchmark bm =>
    refine Or.inr ?_
    simp only [process_item] at h
    cases hp : parse_id bm.id with
    | none => rw [hp] at h; cases h
    | some tcr =>
      obtain ⟨tn, cn, rn⟩ := tcr
      rw [hp] at h
      dsimp only [] at h
      cases ht : TimeUnit.try_new bm.typical.estimate bm.typical.unit with
      | error e => rw [ht] at h; cases h
      | ok tu =>
        rw [ht] at h
        dsimp only [] at h
        cases ha : Table.add_column_data ((alookup st.tables tn).getD (Table.new tn))
            (next_idx st.cp rn).1 cn rn tu with
        | error e => rw [ha] at h; cases h
        | ok t1 =>
          rw [ha] at h
          cases h
          exact ⟨bm, tn, cn, rn, tu, t1, rfl, hp, ht, ha, rfl⟩

theorem build_loop_append (items1 items2 : List RawCriterionData) (st : BState) :
    build_loop (items1 ++ items2) st =
      match build_loop items1 st with
      | .error e => .error e
      | .ok st1 => build_loop items2 st1 := by
  induction items1 generalizing st with
  | nil => simp [build_loop]
  | cons item rest ih =>
    simp only [List.cons_append, build_loop]
    cases process_item st item with
    | error e => rfl
    | ok st1 => exact ih st1

theorem self_mem_updateOrAppend {α : Type} (l : List (String × α)) (k : String) (v : α) :
    (k, v) ∈ updateOrAppend l k v := by
  induction l with
  | nil => simp [updateOrAppend]
  | cons q rest ih =>
    obtain ⟨k0, v0⟩ := q
    by_cases h0 : k0 = k <;> simp [updateOrAppend, h0, ih]

theorem mem_updateOrAppend_or {α : Type} {l : List (String × α)} {k : String} {v : α}
    {p : String × α} (hp : p ∈ l) :
    p ∈ updateOrAppend l k v ∨ (p.1 = k ∧ alookup l k = some p.2) := by
  induction l with
  | nil => simp at hp
  | cons q rest ih =>
    obtain ⟨k0, v0⟩ := q
    by_cases h0 : k0 = k
    · subst h0
      rcases List.mem_cons.mp hp with hp | hp
      · subst hp
        exact Or.inr ⟨rfl, by simp [alookup]⟩
      · exact Or.inl (by simp [updateOrAppend, hp])
    · rcases List.mem_cons.mp hp with hp | hp
      · subst hp
        exact Or.inl (by simp [updateOrAppend, h0])
      · rcases ih hp with h | ⟨h1, h2⟩
        · exact Or.inl (by simp [updateOrAppend, h0, h])
        · exact Or.inr ⟨h1, by simp [alookup, h0, h2]⟩

theorem foldr_max_append (l : List Nat) (a : Nat) :
    (l ++ [a]).foldr max 0 = max (l.foldr max 0) a := by
  induction l with
  | nil => simp
  | cons x xs ih => simp [ih, Nat.max_assoc]

theorem le_foldr_max {l : List Nat} {a : Nat} (h : a ∈ l) : a ≤ l.foldr max 0 := by
  induction l with
  | nil => simp at h
  | cons x xs ih =>
    rcases List.mem_cons.mp h with h | h
    · subst h; exact le_max_left _ _
    · exact le_trans (ih h) (le_max_right _ _)

theorem build_loop_cp :
    ∀ (items : List RawCriterionData) (st st' : BState),
      build_loop items st = .ok st' → st'.cp = fold_counter st.cp (stream_row_names items)
  | [], st, st' => by
    intro h
    simp only [build_loop] at h
    cases h
    rfl
  | item :: rest, st, st' => by
    intro h
    simp only [build_loop] at h
    cases hpi : process_item st item with
    | error e => rw [hpi] at h; cases h
    | ok st1 =>
      rw [hpi] at h
      have hrest := build_loop_cp rest st1 st' h
      rcases process_item_ok hpi with ⟨hg, rfl⟩ | ⟨bm, tn, cn, rn, tu, t1, hbm, hp, _, _, hst1⟩
      · subst hg
        simpa [stream_row_names] using hrest
      · subst hbm hst1
        have hs : stream_row_names (RawCriterionData.benchmark bm :: rest) =
            rn :: stream_row_names rest := by
          simp [stream_row_names, hp]
        rw [hs]
        simpa [fold_counter] using hrest

theorem map_len_fst {α : Type} (l : List (String × α)) :
    l.map (fun p => p.1.length) = (l.map Prod.fst).map String.length := by
  induction l with
  | nil => rfl
  | cons q rest ih => simp [ih]

theorem comparisons_ok_append {l : List (String × Column)} {cn : String} {tu : TimeUnit}
    (hOk : comparisons_ok l) :
    comparisons_ok (l ++ [(cn, Column.new cn tu (l.head?.map fun p => p.2.time_unit))]) := by
  cases l with
  | nil =>
    simp only [List.nil_append, comparisons_ok]
    constructor
    · simp [Column.new]
    · intro p hp
      simp at hp
  | cons q rest =>
    obtain ⟨k0, c0⟩ := q
    obtain ⟨h1, h2⟩ := hOk
    refine ⟨h1, ?_⟩
    intro p hp
    rcases List.mem_append.mp hp with hp | hp
    · exact h2 p hp
    · simp only [List.mem_singleton] at hp
      subst hp
      simp [Column.new]

/-- The central preservation lemma: one `Table::add_column_data` call, at a positive
index, carries the invariant from the table it starts from (or establishes it on a
freshly created table) to its result. -/
theorem add_column_data_inv {t : Table} {idx : Nat} {cn rn : String} {tu : TimeUnit}
    {t' : Table} (hidx : 1 ≤ idx)
    (hinv : TableInv t ∨ (t.columns = [] ∧ t.rows = []))
    (h : Table.add_column_data t idx cn rn tu = .ok t') : TableInv t' := by
  obtain ⟨cols1, rc, cols2, h1, h2, h3, rfl⟩ := add_column_data_ok h
  obtain ⟨rnone, hcol, hrow⟩ := add_column_ok h2
  obtain ⟨r', col⟩ := rc
  dsimp only at hcol hrow h3 ⊢
  -- the row the column goes into
  set r0 : Row := (alookup t.rows rn).getD (Row.new rn) with hr0
  -- shape of the first update: the blank head entry, widened by the row name length
  have hcols1 : ∃ w1 tail, cols1 = ColumnInfo.new "" w1 :: tail ∧ rn.length ≤ w1 ∧
      (∀ ci ∈ tail, ci ∈ t.columns) ∧
      ((t.columns = [] ∧ tail = [] ∧ w1 = rn.length) ∨
        (∃ w0 tail0, t.columns = ColumnInfo.new "" w0 :: tail0 ∧ tail = tail0 ∧
          w1 = max w0 rn.length)) := by
    rcases hinv with hI | ⟨hc, _⟩
    · obtain ⟨w0, hw0⟩ := hI.head_blank
      cases hcols : t.columns with
      | nil => rw [hcols] at hw0; simp at hw0
      | cons c0 tail0 =>
        rw [hcols] at hw0
        simp only [List.head?_cons, Option.some.injEq] at hw0
        rw [hcols, hw0, uci_zero_blank_cons] at h1
        cases h1
        exact ⟨max w0 rn.length, tail0, rfl, le_max_right _ _,
          fun ci hci => List.mem_cons_of_mem _ hci,
          Or.inr ⟨w0, tail0, by rw [hw0], rfl, rfl⟩⟩
    · rw [hc, uci_zero_blank_nil] at h1
      cases h1
      exact ⟨rn.length, [], rfl, le_refl _, by simp,
        Or.inl ⟨hc, rfl, rfl⟩⟩
  obtain ⟨w1, tail, hc1, hrnw1, htail, hshape⟩ := hcols1
  -- shape of the second update: the head survives (possibly widened when the new
  -- column name is itself blank)
  obtain ⟨idx', rfl⟩ : ∃ idx', idx = idx' + 1 := ⟨idx - 1, by omega⟩
  have hhead2 : cols2.head? = some (if cn = "" then
      (ColumnInfo.new "" w1).update_info (max col.width cn.length)
      else ColumnInfo.new "" w1) := by
    rw [uci_head h3, hc1]
    simp only [List.head?_cons, Option.map_some']
    by_cases hcn : cn = ""
    · subst hcn
      simp [ColumnInfo.new]
    · have : ¬ (ColumnInfo.new "" w1).name = cn := by
        simpa [ColumnInfo.new] using fun e => hcn e.symm
      simp [this, hcn]
  have hw2 : ∃ w2, cols2.head? = some (ColumnInfo.new "" w2) ∧ w1 ≤ w2 ∧
      (cn ≠ "" → w2 = w1) := by
    by_cases hcn : cn = ""
    · refine ⟨max w1 (max col.width cn.length), ?_, le_max_left _ _, fun hne => absurd hcn hne⟩
      rw [hhead2, if_pos hcn]
      rfl
    · exact ⟨w1, by rw [hhead2, if_neg hcn], le_refl _, fun _ => rfl⟩
  obtain ⟨w2, hw2head, hw1w2, hw2eq⟩ := hw2
  have hlabel' : label_width { t with columns := cols2, rows := updateOrAppend t.rows rn r' } = w2 := by
    simp [label_width, hw2head, ColumnInfo.new]
  -- membership in the new rows
  have hr'mem : (rn, r') ∈ updateOrAppend t.rows rn r' := self_mem_updateOrAppend _ _ _
  -- old rows invariants, instantiated where available
  have hold : ∀ p ∈ t.rows, TableInv t := by
    intro p hp
    rcases hinv with hI | ⟨_, hr⟩
    · exact hI
    · rw [hr] at hp; simp at hp
  -- columns of r0 come from a genuine old row (or r0 is fresh and empty)
  have hr0cases : (∃ p, p ∈ t.rows ∧ p = (rn, r0)) ∨ r0 = Row.new rn := by
    cases hl : alookup t.rows rn with
    | some rr => exact Or.inl ⟨(rn, rr), alookup_mem hl, by rw [hr0, hl]; rfl⟩
    | none => exact Or.inr (by rw [hr0, hl]; rfl)
  constructor
  -- head_blank
  case head_blank => exact ⟨w2, hw2head⟩
  -- label_ge
  case label_ge =>
    intro p hp
    rw [hlabel']
    rcases mem_updateOrAppend hp with hp | hp
    · subst hp
      exact le_trans hrnw1 hw1w2
    · have hI := hold p hp
      have := hI.label_ge p hp
      rcases hshape with ⟨hnil, _, _⟩ | ⟨w0, tail0, hcols, _, hw1⟩
      · obtain ⟨w, hw⟩ := hI.head_blank
        rw [hnil] at hw
        simp at hw
      · have : p.1.length ≤ w0 := by
          simpa [label_width, hcols, ColumnInfo.new] using hI.label_ge p hp
        calc p.1.length ≤ w0 := this
          _ ≤ w1 := hw1 ▸ le_max_left _ _
          _ ≤ w2 := hw1w2
  -- label_eq
  case label_eq =>
    intro hnb
    rw [hlabel']
    -- the new column's name is not blank
    have hcn : cn ≠ "" := by
      have := hnb (rn, r') hr'mem (cn, col) (by rw [hrow]; simp)
      simpa using this
    rw [hw2eq hcn]
    -- the old table had no blank column either
    have hnbold : no_blank_column t := by
      intro p hp c hc
      rcases @mem_updateOrAppend_or _ _ rn r' _ hp with hmem | ⟨hpk, hpl⟩
      · exact hnb p hmem c hc
      · refine hnb (rn, r') hr'mem c ?_
        have hpr : p.2 = r0 := by rw [hr0, hpl]; rfl
        rw [hrow]
        refine List.mem_append.mpr (Or.inl ?_)
        rw [← hpr]
        exact hc
    rcases hshape with ⟨hnil, _, hw1⟩ | ⟨w0, tail0, hcols, _, hw1⟩
    · -- fresh table: a single row
      have hrows : t.rows = [] := by
        rcases hinv with hI | ⟨_, hr⟩
        · exfalso
          obtain ⟨w, hw⟩ := hI.head_blank
          rw [hnil] at hw
          simp at hw
        · exact hr
      rw [hrows]
      simp [max_row_name_len, updateOrAppend, hw1]
    · -- existing table
      have hI : TableInv t := by
        rcases hinv with hI | ⟨hc, _⟩
        · exact hI
        · rw [hc] at hcols; cases hcols
      have hw0 : w0 = max_row_name_len t := by
        have := hI.label_eq hnbold
        simpa [label_width, hcols, ColumnInfo.new] using this
      rw [hw1, hw0]
      -- compare the new row-name multiset with the old one
      cases hl : alookup t.rows rn with
      | some rr =>
        have hk := keys_updateOrAppend t.rows rn r'
        rw [hl] at hk
        simp only [Option.isSome_some, if_pos] at hk
        have hrnlen : rn.length ≤ max_row_name_len t := by
          apply le_foldr_max
          have : (rn, rr) ∈ t.rows := alookup_mem hl
          exact List.mem_map.mpr ⟨(rn, rr), this, rfl⟩
        have : max_row_name_len { t with columns := cols2, rows := updateOrAppend t.rows rn r' } = max_row_name_len t := by
          simp only [max_row_name_len]
          rw [map_len_fst, hk, ← map_len_fst]
        rw [this]
        omega
      | none =>
        have hk := keys_updateOrAppend t.rows rn r'
        rw [hl] at hk
        simp at hk
        have : max_row_name_len { t with columns := cols2, rows := updateOrAppend t.rows rn r' } = max (max_row_name_len t) rn.length := by
          simp only [max_row_name_len]
          rw [map_len_fst, hk, List.map_append]
          simp only [List.map_cons, List.map_nil]
          rw [foldr_max_append, ← map_len_fst]
        rw [this]
  -- nodup_names
  case nodup_names =>
    refine uci_nodup h3 ?_
    rcases hshape with ⟨hnil, htl, _⟩ | ⟨w0, tail0, hcols, htl, _⟩
    · rw [hc1, htl]
      simp
    · have hI : TableInv t := by
        rcases hinv with hI | ⟨hc, _⟩
        · exact hI
        · rw [hc] at hcols; cases hcols
      have := hI.nodup_names
      rw [hcols] at this
      rw [hc1, htl]
      simpa [ColumnInfo.new] using this
  -- name_le
  case name_le =>
    intro ci hci hne
    rcases uci_mem h3 hci with ⟨cj, hcj, hname, hwid⟩ | hnew
    · rw [hc1] at hcj
      rcases List.mem_cons.mp hcj with hcj | hcj
      · exfalso
        apply hne
        rw [hname, hcj]
        rfl
      · have hI : TableInv t := by
          rcases hinv with hI | ⟨hc, hr⟩
          · exact hI
          · exfalso
            have := htail cj hcj
            rw [hc] at this
            simp at this
        have := hI.name_le cj (htail cj hcj) (by rw [← hname]; exact hne)
        rw [hname]
        exact le_trans this hwid
    · rw [hnew]
      simp [ColumnInfo.new]
  -- covered
  case covered =>
    intro p hp c hc
    have step : ∀ cj ∈ t.columns, ∃ ci' ∈ cols2, ci'.name = cj.name ∧
        cj.max_width ≤ ci'.max_width := by
      intro cj hcj
      have hstep1 : ∃ cj1 ∈ cols1, cj1.name = cj.name ∧ cj.max_width ≤ cj1.max_width :=
        uci_mono h1 hcj
      obtain ⟨cj1, hcj1, he1, hw1'⟩ := hstep1
      obtain ⟨cj2, hcj2, he2, hw2'⟩ := uci_mono h3 hcj1
      exact ⟨cj2, hcj2, by rw [he2, he1], le_trans hw1' hw2'⟩
    rcases mem_updateOrAppend hp with hp' | hp'
    · -- the updated row
      subst hp'
      simp only at hc
      rw [hrow] at hc
      rcases List.mem_append.mp hc with hc | hc
      · -- an old column of r0
        rcases hr0cases with ⟨p0, hp0, hp0eq⟩ | hfresh
        · have hI := hold p0 hp0
          have := hI.covered p0 hp0 c (by rw [hp0eq]; exact hc)
          obtain ⟨cj, hcj, hname, hwid⟩ := this
          obtain ⟨ci', hci', he, hw⟩ := step cj hcj
          exact ⟨ci', hci', by rw [he, hname], le_trans hwid hw⟩
        · rw [hfresh] at hc
          simp [Row.new] at hc
      · -- the new column
        simp only [List.mem_singleton] at hc
        subst hc
        obtain ⟨ci', hci', he, hw⟩ := uci_covers h3
        refine ⟨ci', hci', he, ?_⟩
        show col.width ≤ ci'.max_width
        have hle : col.width ≤ max col.width cn.length := le_max_left _ _
        omega
    · -- an untouched old row
      have hI := hold p hp'
      obtain ⟨cj, hcj, hname, hwid⟩ := hI.covered p hp' c hc
      obtain ⟨ci', hci', he, hw⟩ := step cj hcj
      exact ⟨ci', hci', by rw [he, hname], le_trans hwid hw⟩
  -- rows_ok
  case rows_ok =>
    intro p hp
    rcases mem_updateOrAppend hp with hp' | hp'
    · subst hp'
      simp only
      have hOk0 : comparisons_ok r0.column_data := by
        rcases hr0cases with ⟨p0, hp0, hp0eq⟩ | hfresh
        · have hI := hold p0 hp0
          have := hI.rows_ok p0 hp0
          rw [hp0eq] at this
          exact this
        · rw [hfresh]
          simp [Row.new, comparisons_ok]
      have := @comparisons_ok_append _ cn tu hOk0
      rw [hrow, hcol]
      simpa [Row.first_column_time] using this
    · exact (hold p hp').rows_ok p hp'
  -- rows_ne
  case rows_ne => exact updateOrAppend_ne_nil _ _ _
  -- row_name_key
  case row_name_key =>
    intro p hp
    rcases mem_updateOrAppend hp with hp' | hp'
    · subst hp'
      simp only
      rw [hrow]
      rcases hr0cases with ⟨p0, hp0, hp0eq⟩ | hfresh
      · have := (hold p0 hp0).row_name_key p0 hp0
        rw [hp0eq] at this
        exact this
      · rw [hfresh]
        rfl
    · exact (hold p hp').row_name_key p hp'
  -- col_name_key
  case col_name_key =>
    intro p hp c hc
    rcases mem_updateOrAppend hp with hp' | hp'
    · subst hp'
      simp only at hc
      rw [hrow] at hc
      rcases List.mem_append.mp hc with hc | hc
      · rcases hr0cases with ⟨p0, hp0, hp0eq⟩ | hfresh
        · exact (hold p0 hp0).col_name_key p0 hp0 c (by rw [hp0eq]; exact hc)
        · rw [hfresh] at hc
          simp [Row.new] at hc
      · simp only [List.mem_singleton] at hc
        subst hc
        rw [hcol]
        rfl
    · exact (hold p hp').col_name_key p hp' c hc

theorem process_item_inv {st : BState} {item : RawCriterionData} {st' : BState}
    (h : process_item st item = .ok st') (hinv : state_inv st) : state_inv st' := by
  rcases process_item_ok h with ⟨_, rfl⟩ | ⟨bm, tn, cn, rn, tu, t1, _, _, _, ha, rfl⟩
  · exact hinv
  · intro p hp
    rcases mem_updateOrAppend hp with hp' | hp'
    · subst hp'
      refine add_column_data_inv (next_idx_fst_pos st.cp rn) ?_ ha
      cases hl : alookup st.tables tn with
      | some t0 => exact Or.inl (hinv (tn, t0) (alookup_mem hl))
      | none => exact Or.inr ⟨rfl, rfl⟩
    · exact hinv p hp'

theorem build_loop_inv :
    ∀ (items : List RawCriterionData) (st st' : BState),
      build_loop items st = .ok st' → state_inv st → state_inv st'
  | [], st, st' => by
    intro h hinv
    simp only [build_loop] at h
    cases h
    exact hinv
  | item :: rest, st, st' => by
    intro h hinv
    simp only [build_loop] at h
    cases hpi : process_item st item with
    | error e => rw [hpi] at h; cases h
    | ok st1 =>
      rw [hpi] at h
      exact build_loop_inv rest st1 st' h (process_item_inv hpi hinv)

/-- Every table of a successfully built `CriterionTableData` satisfies the
invariant. -/
theorem from_raw_inv {rs : List RawCriterionData} {d : CriterionTableData}
    (h : CriterionTableData.from_raw rs = .ok d) : ∀ p ∈ d.tables, TableInv p.2 := by
  unfold CriterionTableData.from_raw at h
  cases hb : build_loop rs init_state with
  | error e => rw [hb] at h; cases h
  | ok st =>
    rw [hb] at h
    cases h
    have : state_inv st := build_loop_inv rs init_state st hb (by intro p hp; simp [init_state] at hp)
    exact this

/-- A successful build of a longer stream implies a successful build of any of its
record-wise prefixes (the loop is strictly sequential and errors abort). -/
theorem from_raw_of_append {rs1 rs2 : List RawCriterionData} {d : CriterionTableData}
    (h : CriterionTableData.from_raw (rs1 ++ rs2) = .ok d) :
    ∃ d1, CriterionTableData.from_raw rs1 = .ok d1 := by
  unfold CriterionTableData.from_raw at h ⊢
  rw [build_loop_append] at h
  cases hb : build_loop rs1 init_state with
  | error e => rw [hb] at h; cases h
  | ok st1 => exact ⟨{ tables := st1.tables }, rfl⟩

theorem nspec_s (t : ℚ) : normalize_spec t .s = .second t := by
  simp only [normalize_spec]

theorem nspec_ms (t : ℚ) :
    normalize_spec t .ms =
      if t > 1000 then normalize_spec (t / 1000) .s else .millisecond t := by
  by_cases ht : t > 1000 <;> simp only [normalize_spec, ht, if_true, if_false]

theorem nspec_us (t : ℚ) :
    normalize_spec t .us =
      if t > 1000 then normalize_spec (t / 1000) .ms else .microsecond t := by
  by_cases ht : t > 1000 <;> simp only [normalize_spec, ht, if_true, if_false]

theorem nspec_ns (t : ℚ) :
    normalize_spec t .ns =
      if t > 1000 then normalize_spec (t / 1000) .us else .nanosecond t := by
  by_cases ht : t > 1000 <;> simp only [normalize_spec, ht, if_true, if_false]

theorem nspec_ps (t : ℚ) :
    normalize_spec t .ps =
      if t > 1000 then normalize_spec (t / 1000) .ns else .picosecond t := by
  by_cases ht : t > 1000 <;> simp only [normalize_spec, ht, if_true, if_false]

theorem try_new_go_s (d : Nat) (t : ℚ) :
    try_new_go (d + 1) t "s" = .ok (normalize_spec t .s) := by
  rw [nspec_s]
  simp [try_new_go]

theorem try_new_go_ms (d : Nat) (t : ℚ) :
    try_new_go (d + 2) t "ms" = .ok (normalize_spec t .ms) := by
  rw [nspec_ms]
  by_cases ht : t > 1000
  · rw [if_pos ht, show d + 2 = (d + 1) + 1 from rfl]
    unfold try_new_go
    rw [if_pos ⟨rfl, ht⟩, try_new_go_s]
  · rw [if_neg ht]
    unfold try_new_go
    simp [ht]

theorem try_new_go_us (d : Nat) (t : ℚ) :
    try_new_go (d + 3) t "us" = .ok (normalize_spec t .us) := by
  rw [nspec_us]
  by_cases ht : t > 1000
  · rw [if_pos ht, show d + 3 = (d + 2) + 1 from rfl]
    unfold try_new_go
    rw [if_neg (by simp), if_pos ⟨rfl, ht⟩, try_new_go_ms]
  · rw [if_neg ht]
    unfold try_new_go
    simp [ht]

theorem try_new_go_ns (d : Nat) (t : ℚ) :
    try_new_go (d + 4) t "ns" = .ok (normalize_spec t .ns) := by
  rw [nspec_ns]
  by_cases ht : t > 1000
  · rw [if_pos ht, show d + 4 = (d + 3) + 1 from rfl]
    unfold try_new_go
    rw [if_neg (by simp), if_neg (by simp), if_pos ⟨rfl, ht⟩, try_new_go_us]
  · rw [if_neg ht]
    unfold try_new_go
    simp [ht]

theorem try_new_go_ps (d : Nat) (t : ℚ) :
    try_new_go (d + 5) t "ps" = .ok (normalize_spec t .ps) := by
  rw [nspec_ps]
  by_cases ht : t > 1000
  · rw [if_pos ht, show d + 5 = (d + 4) + 1 from rfl]
    unfold try_new_go
    rw [if_neg (by simp), if_neg (by simp), if_neg (by simp), if_pos ⟨rfl, ht⟩,
      try_new_go_ns]
  · rw [if_neg ht]
    unfold try_new_go
    simp [ht]

/-- `try_new` on each of the five known labels agrees with the spec's
normalization rule. -/
theorem try_new_eq_spec_s (t : ℚ) :
    TimeUnit.try_new t "s" = .ok (normalize_spec t .s) := by
  unfold TimeUnit.try_new
  rw [show (5 : Nat) = 4 + 1 from rfl, try_new_go_s]

theorem try_new_eq_spec_ms (t : ℚ) :
    TimeUnit.try_new t "ms" = .ok (normalize_spec t .ms) := by
  unfold TimeUnit.try_new
  rw [show (5 : Nat) = 3 + 2 from rfl, try_new_go_ms]

theorem try_new_eq_spec_us (t : ℚ) :
    TimeUnit.try_new t "us" = .ok (normalize_spec t .us) := by
  unfold TimeUnit.try_new
  rw [show (5 : Nat) = 2 + 3 from rfl, try_new_go_us]

theorem try_new_eq_spec_ns (t : ℚ) :
    TimeUnit.try_new t "ns" = .ok (normalize_spec t .ns) := by
  unfold TimeUnit.try_new
  rw [show (5 : Nat) = 1 + 4 from rfl, try_new_go_ns]

theorem try_new_eq_spec_ps (t : ℚ) :
    TimeUnit.try_new t "ps" = .ok (normalize_spec t .ps) := by
  unfold TimeUnit.try_new
  rw [show (5 : Nat) = 0 + 5 from rfl, try_new_go_ps]

theorem try_new_unknown (t : ℚ) (u : String) (hu : u ∉ known_units) :
    TimeUnit.try_new t u = .error (.unrecognized_unit u) := by
  simp only [known_units, List.mem_cons, not_or, List.not_mem_nil] at hu
  obtain ⟨h1, h2, h3, h4, h5, -⟩ := hu
  unfold TimeUnit.try_new try_new_go
  simp [h1, h2, h3, h4, h5]

theorem normalize_spec_normal_s (t : ℚ) : is_normal (normalize_spec t .s) := by
  rw [nspec_s]
  trivial

theorem normalize_spec_normal_ms (t : ℚ) : is_normal (normalize_spec t .ms) := by
  rw [nspec_ms]
  by_cases ht : t > 1000
  · rw [if_pos ht]
    exact normalize_spec_normal_s _
  · rw [if_neg ht]
    simpa [is_normal, TimeUnit.time] using le_of_not_lt ht

theorem normalize_spec_normal_us (t : ℚ) : is_normal (normalize_spec t .us) := by
  rw [nspec_us]
  by_cases ht : t > 1000
  · rw [if_pos ht]
    exact normalize_spec_normal_ms _
  · rw [if_neg ht]
    simpa [is_normal, TimeUnit.time] using le_of_not_lt ht

theorem normalize_spec_normal_ns (t : ℚ) : is_normal (normalize_spec t .ns) := by
  rw [nspec_ns]
  by_cases ht : t > 1000
  · rw [if_pos ht]
    exact normalize_spec_normal_us _
  · rw [if_neg ht]
    simpa [is_normal, TimeUnit.time] using le_of_not_lt ht

theorem normalize_spec_normal_ps (t : ℚ) : is_normal (normalize_spec t .ps) := by
  rw [nspec_ps]
  by_cases ht : t > 1000
  · rw [if_pos ht]
    exact normalize_spec_normal_ns _
  · rw [if_neg ht]
    simpa [is_normal, TimeUnit.time] using le_of_not_lt ht

theorem try_new_normal {t : ℚ} {u : String} {tu : TimeUnit}
    (h : TimeUnit.try_new t u = .ok tu) : is_normal tu := by
  by_cases hu : u ∈ known_units
  · simp only [known_units, List.mem_cons, List.not_mem_nil, or_false] at hu
    rcases hu with rfl | rfl | rfl | rfl | rfl
    · rw [try_new_eq_spec_s] at h
      cases h
      exact normalize_spec_normal_s _
    · rw [try_new_eq_spec_ms] at h
      cases h
      exact normalize_spec_normal_ms _
    · rw [try_new_eq_spec_us] at h
      cases h
      exact normalize_spec_normal_us _
    · rw [try_new_eq_spec_ns] at h
      cases h
      exact normalize_spec_normal_ns _
    · rw [try_new_eq_spec_ps] at h
      cases h
      exact normalize_spec_normal_ps _
  · rw [try_new_unknown t u hu] at h
    cases h

theorem normal_round_trip {tu : TimeUnit} (h : is_normal tu) :
    TimeUnit.try_new tu.time tu.unit_label = .ok tu := by
  cases tu with
  | second t =>
    unfold TimeUnit.try_new try_new_go
    simp [TimeUnit.time, TimeUnit.unit_label]
  | millisecond t =>
    have ht : ¬ t > 1000 := not_lt.mpr (by simpa [is_normal, TimeUnit.time] using h)
    unfold TimeUnit.try_new try_new_go
    simp [TimeUnit.time, TimeUnit.unit_label, ht]
  | microsecond t =>
    have ht : ¬ t > 1000 := not_lt.mpr (by simpa [is_normal, TimeUnit.time] using h)
    unfold TimeUnit.try_new try_new_go
    simp [TimeUnit.time, TimeUnit.unit_label, ht]
  | nanosecond t =>
    have ht : ¬ t > 1000 := not_lt.mpr (by simpa [is_normal, TimeUnit.time] using h)
    unfold TimeUnit.try_new try_new_go
    simp [TimeUnit.time, TimeUnit.unit_label, ht]
  | picosecond t =>
    have ht : ¬ t > 1000 := not_lt.mpr (by simpa [is_normal, TimeUnit.time] using h)
    unfold TimeUnit.try_new try_new_go
    simp [TimeUnit.time, TimeUnit.unit_label, ht]

/-! ## Error taxonomy of the builder (for the malformed-identifier claim) -/

theorem try_new_err_shape {t : ℚ} {u : String} {e : BuildError}
    (h : TimeUnit.try_new t u = .error e) : ∃ u2, e = .unrecognized_unit u2 := by
  by_cases hu : u ∈ known_units
  · simp only [known_units, List.mem_cons, List.not_mem_nil, or_false] at hu
    rcases hu with rfl | rfl | rfl | rfl | rfl
    · rw [try_new_eq_spec_s] at h; cases h
    · rw [try_new_eq_spec_ms] at h; cases h
    · rw [try_new_eq_spec_us] at h; cases h
    · rw [try_new_eq_spec_ns] at h; cases h
    · rw [try_new_eq_spec_ps] at h; cases h
  · rw [try_new_unknown t u hu] at h
    cases h
    exact ⟨u, rfl⟩


theorem add_column_data_err {t : Table} {idx : Nat} {cn rn : String} {tu : TimeUnit}
    {e : BuildError} (h : Table.add_column_data t idx cn rn tu = .error e) :
    e = .panic_oob ∨ e = .duplicate_column cn := by
  unfold Table.add_column_data at h
  cases h1 : update_column_info t.columns 0 "" rn.length with
  | none => rw [h1] at h; cases h; exact Or.inl rfl
  | some cols1 =>
    rw [h1] at h
    dsimp only [] at h
    cases h2 : Row.add_column ((alookup t.rows rn).getD (Row.new rn)) cn tu with
    | error e2 =>
      rw [h2] at h
      cases h
      unfold Row.add_column at h2
      cases hl : alookup ((alookup t.rows rn).getD (Row.new rn)).column_data cn with
      | some c => rw [hl] at h2; cases h2; exact Or.inr rfl
      | none => rw [hl] at h2; cases h2
    | ok rc =>
      rw [h2] at h
      dsimp only [] at h
      cases h3 : update_column_info cols1 idx cn (max rc.2.width cn.length) with
      | none => rw [h3] at h; cases h; exact Or.inl rfl
      | some cols2 => rw [h3] at h; cases h

/-- The only way `process_item` raises the malformed-identifier error is a benchmark
record whose identifier has fewer than two segments, and the error names that
record's identifier. -/
theorem process_item_err {st : BState} {item : RawCriterionData} {e : BuildError}
    (h : process_item st item = .error e) :
    ∃ bm, item = .benchmark bm ∧
      ((parse_id bm.id = none ∧ e = .malformed_id bm.id) ∨
        ∀ id, e ≠ .malformed_id id) := by
  cases item with
  | benchmark_group => simp only [process_item] at h; cases h
  | benchmark bm =>
    refine ⟨bm, rfl, ?_⟩
    simp only [process_item] at h
    cases hp : parse_id bm.id with
    | none =>
      rw [hp] at h
      cases h
      exact Or.inl ⟨rfl, rfl⟩
    | some tcr =>
      obtain ⟨tn, cn, rn⟩ := tcr
      rw [hp] at h
      dsimp only [] at h
      refine Or.inr ?_
      cases ht : TimeUnit.try_new bm.typical.estimate bm.typical.unit with
      | error e2 =>
        rw [ht] at h
        cases h
        obtain ⟨u2, rfl⟩ := try_new_err_shape ht
        intro id hid
        cases hid
      | ok tu =>
        rw [ht] at h
        dsimp only [] at h
        cases ha : Table.add_column_data ((alookup st.tables tn).getD (Table.new tn))
            (next_idx st.cp rn).1 cn rn tu with
        | error e2 =>
          rw [ha] at h
          cases h
          rcases add_column_data_err ha with rfl | rfl
          · intro id hid; cases hid
          · intro id hid; cases hid
        | ok t1 => rw [ha] at h; cases h

/-! ## Cell widths of the GFM formatter -/

theorem string_mk_length (l : List Char) : (String.mk l).length = l.length := rfl

theorem pad_length (b : String) (ch : Char) (m w : Nat) :
    (GFM.pad b ch m w).length = b.length + ((m - w) + 1) := by
  unfold GFM.pad
  have h2 : (String.mk (List.replicate (m - w + 1) ch)).length = m - w + 1 := by
    rw [string_mk_length]
    exact List.length_replicate _ _
  rw [String.length_append, h2]

theorem used_extra_eq : USED_EXTRA_WIDTH = 11 := rfl

theorem first_extra_eq : FIRST_COL_EXTRA_WIDTH = 6 := rfl

theorem used_column_length (b : String) (tu : TimeUnit) (cp : Comparison) (mw : Nat)
    (hw : tu.width + Comparison.width cp ≤ mw) :
    (GFM.used_column b tu cp mw).length = b.length + (mw + USED_EXTRA_WIDTH + 3) := by
  have hts : tu.to_flex_str.length = tu.width := rfl
  have hss : (Comparison.to_flex_str cp).length = Comparison.width cp := rfl
  have e1 : ("| " : String).length = 2 := rfl
  have e2 : ("`" : String).length = 1 := rfl
  have e3 : ("` (✅ **" : String).length = 7 := rfl
  have e4 : ("**)" : String).length = 3 := rfl
  have e5 : ("` (❌ *" : String).length = 6 := rfl
  have e6 : ("*)" : String).length = 2 := rfl
  have e7 : ("` (" : String).length = 3 := rfl
  have e8 : (")" : String).length = 1 := rfl
  unfold GFM.used_column
  by_cases h1 : contains_sub (Comparison.to_flex_str cp) "faster"
  · simp only [h1, if_true, pad_length, String.length_append, hts, hss, e1, e2, e3, e4,
      used_extra_eq]
    omega
  · by_cases h2 : contains_sub (Comparison.to_flex_str cp) "slower"
    · simp only [h1, h2, if_true, if_false, Bool.false_eq_true, pad_length,
        String.length_append, hts, hss, e1, e2, e5, e6, used_extra_eq]
      omega
    · simp only [h1, h2, if_false, Bool.false_eq_true, pad_length,
        String.length_append, hts, hss, e1, e2, e7, e8, used_extra_eq]
      omega

theorem unused_column_length (b : String) (mw : Nat) :
    (GFM.unused_column b mw).length = b.length + (mw + USED_EXTRA_WIDTH + 3) := by
  have e1 : ("| " : String).length = 2 := rfl
  have e2 : ("`N/A`" : String).length = 5 := rfl
  unfold GFM.unused_column
  simp only [pad_length, String.length_append, e1, e2, used_extra_eq]
  omega

theorem header_cell_length (b : String) (ci : ColumnInfo)
    (hn : ci.name.length ≤ ci.max_width) :
    (GFM.header_cell b ci).length = b.length + (ci.max_width + USED_EXTRA_WIDTH + 3) := by
  have e1 : ("| `" : String).length = 3 := rfl
  have e2 : ("`" : String).length = 1 := rfl
  unfold GFM.header_cell
  simp only [pad_length, String.length_append, e1, e2, used_extra_eq]
  omega

theorem start_row_length (b : String) (name : String) (mw : Nat)
    (hn : name.length ≤ mw) :
    (GFM.start_row b name mw).length = b.length + (mw + FIRST_COL_EXTRA_WIDTH + 3) := by
  have e1 : ("| **`" : String).length = 5 := rfl
  have e2 : ("`**" : String).length = 3 := rfl
  have e3 : ("| " : String).length = 2 := rfl
  unfold GFM.start_row
  by_cases h : name ≠ ""
  · rw [if_pos h]
    simp only [pad_length, String.length_append, e1, e2, first_extra_eq]
    omega
  · rw [if_neg h]
    simp only [pad_length, String.length_append, e3, first_extra_eq]
    omega

theorem parse_id_none_iff (id : String) :
    parse_id id = none ↔ (split_slash id).length < 2 := by
  unfold parse_id
  cases hs : split_slash id with
  | nil => simp
  | cons a l =>
    cases l with
    | nil => simp
    | cons b l2 => simp

theorem build_loop_no_malformed :
    ∀ (items : List RawCriterionData) (st : BState) (e : BuildError),
      (∀ bm, RawCriterionData.benchmark bm ∈ items → 2 ≤ (split_slash bm.id).length) →
      build_loop items st = .error e → ∀ id, e ≠ .malformed_id id
  | [], st, e => by
    intro _ h
    simp only [build_loop] at h
    cases h
  | item :: rest, st, e => by
    intro hids h
    simp only [build_loop] at h
    cases hpi : process_item st item with
    | error e2 =>
      rw [hpi] at h
      cases h
      obtain ⟨bm, rfl, hcase⟩ := process_item_err hpi
      rcases hcase with ⟨hpn, rfl⟩ | hne
      · exfalso
        have := hids bm (List.mem_cons_self _ _)
        have := (parse_id_none_iff bm.id).mp hpn
        omega
      · exact hne
    | ok st1 =>
      rw [hpi] at h
      exact build_loop_no_malformed rest st1 e
        (fun bm hbm => hids bm (List.mem_cons_of_mem _ hbm)) h

/-! ## Consequences of the invariant used by the claims -/

theorem tail_names_nonblank {t : Table} (hI : TableInv t) :
    ∀ ci ∈ t.columns.drop 1, ci.name ≠ "" := by
  obtain ⟨w, hw⟩ := hI.head_blank
  have hnd := hI.nodup_names
  cases hc : t.columns with
  | nil => simp [hc]
  | cons c0 tl =>
    rw [hc] at hw
    simp only [List.head?_cons, Option.some.injEq] at hw
    rw [hc] at hnd
    simp only [List.map_cons, List.nodup_cons] at hnd
    intro ci hci hblank
    simp only [List.drop_succ_cons, List.drop_zero] at hci
    apply hnd.1
    rw [hw]
    simp only [ColumnInfo.new]
    rw [← hblank]
    exact List.mem_map.mpr ⟨ci, hci, rfl⟩

theorem covered_unique {t : Table} (hI : TableInv t) {q : String × Row} (hq : q ∈ t.rows)
    {c : String × Column} (hc : c ∈ q.2.column_data) {ci : ColumnInfo}
    (hci : ci ∈ t.columns) (hname : ci.name = c.1) : c.2.width ≤ ci.max_width := by
  obtain ⟨cj, hcj, hn2, hw⟩ := hI.covered q hq c hc
  have heq : cj = ci :=
    List.inj_on_of_nodup_map hI.nodup_names hcj hci (by rw [hn2, hname])
  rw [← heq]
  exact hw

/-! ## Claim theorems -/

/-- C3: in every successfully built table set, the first column inserted into a row
has comparison 1, and every later column's comparison is the row's first-inserted
measurement divided by this column's measurement, both taken in picoseconds
(`TimeUnit.div` divides the two `as_picoseconds` values); the baseline is per-row. -/
theorem comparison_derived_from_row_first_column :
    ∀ (rs : List RawCriterionData) (d : CriterionTableData),
      CriterionTableData.from_raw rs = .ok d → comparisons_derived d := by
  intro rs d h p hp q hq
  exact (from_raw_inv h p hp).rows_ok q hq

/-- C4: on each of the five known unit labels, `TimeUnit::try_new` returns exactly
the measurement described by the spec's repeated divide-by-1000 promotion rule
(`normalize_spec`), and on any other label it returns the unrecognized-unit error
naming that label. -/
theorem try_new_normalizes :
    (∀ t : ℚ, TimeUnit.try_new t "s" = .ok (normalize_spec t .s)) ∧
    (∀ t : ℚ, TimeUnit.try_new t "ms" = .ok (normalize_spec t .ms)) ∧
    (∀ t : ℚ, TimeUnit.try_new t "us" = .ok (normalize_spec t .us)) ∧
    (∀ t : ℚ, TimeUnit.try_new t "ns" = .ok (normalize_spec t .ns)) ∧
    (∀ t : ℚ, TimeUnit.try_new t "ps" = .ok (normalize_spec t .ps)) ∧
    (∀ (t : ℚ) (u : String), u ∉ known_units →
      TimeUnit.try_new t u = .error (.unrecognized_unit u)) :=
  ⟨try_new_eq_spec_s, try_new_eq_spec_ms, try_new_eq_spec_us, try_new_eq_spec_ns,
    try_new_eq_spec_ps, try_new_unknown⟩

/-- C5: the rendered comparison string is a total function of the ratio with exactly
three cases: above one it is the two-decimal ratio followed by "x faster", below one
it is the two-decimal *inverted* ratio followed by "x slower", and at exactly one it
is the two-decimal ratio followed by a bare "x"; witnessed concretely at 2, 1/2
and 1. -/
theorem comparison_rendering_total :
    (∀ r : Comparison,
      (1 < r → Comparison.to_flex_str r = fmt2dec r ++ "x faster") ∧
      (r < 1 → Comparison.to_flex_str r = fmt2dec (1 / r) ++ "x slower") ∧
      (r = 1 → Comparison.to_flex_str r = fmt2dec r ++ "x")) ∧
    Comparison.to_flex_str 2 = "2.00x faster" ∧
    Comparison.to_flex_str (1 / 2) = "2.00x slower" ∧
    Comparison.to_flex_str 1 = "1.00x" := by
  refine ⟨?_, ?_, ?_, ?_⟩
  · intro r
    refine ⟨?_, ?_, ?_⟩
    · intro h
      unfold Comparison.to_flex_str
      rw [if_pos h]
    · intro h
      unfold Comparison.to_flex_str
      rw [if_neg (by linarith), if_pos h]
    · intro h
      subst h
      unfold Comparison.to_flex_str
      rw [if_neg (by norm_num), if_neg (by norm_num)]
  · have h2 : fmt2dec 2 = "2.00" := by
      norm_num [fmt2dec, round_eq]
      decide
    unfold Comparison.to_flex_str
    rw [if_pos (by norm_num), h2]
    rfl
  · have h2 : fmt2dec (1 / (1 / 2) : ℚ) = "2.00" := by
      norm_num [fmt2dec, round_eq]
      decide
    unfold Comparison.to_flex_str
    rw [if_neg (by norm_num), if_pos (by norm_num), h2]
    rfl
  · have h1 : fmt2dec 1 = "1.00" := by
      norm_num [fmt2dec, round_eq]
      decide
    unfold Comparison.to_flex_str
    rw [if_neg (by norm_num), if_neg (by norm_num), h1]
    rfl

/-- C6: normalization is idempotent — feeding the magnitude and unit label of any
`try_new` result back into `try_new` returns the same value unchanged. -/
theorem try_new_idempotent :
    ∀ (t : ℚ) (u : String) (tu : TimeUnit),
      TimeUnit.try_new t u = .ok tu →
      TimeUnit.try_new tu.time tu.unit_label = .ok tu :=
  fun _ _ _ h => normal_round_trip (try_new_normal h)

/-- C7: in every successfully built table set every named (non-label) column's
registered `max_width` dominates the column name's character length and every
populated cell's measurement-plus-comparison display width; and every prefix of a
successfully built stream itself builds successfully, so the bound holds after every
record the builder processes. -/
theorem column_widths_dominate :
    (∀ (rs : List RawCriterionData) (d : CriterionTableData),
      CriterionTableData.from_raw rs = .ok d → widths_ok d) ∧
    (∀ (rs1 rs2 : List RawCriterionData) (d : CriterionTableData),
      CriterionTableData.from_raw (rs1 ++ rs2) = .ok d →
      ∃ d1, CriterionTableData.from_raw rs1 = .ok d1) := by
  constructor
  · intro rs d h p hp ci hci hne
    have hI := from_raw_inv h p hp
    refine ⟨hI.name_le ci hci hne, ?_⟩
    intro q hq c hc hcname
    exact covered_unique hI hq hc hci (by rw [hcname])
  · intro rs1 rs2 d h
    exact from_raw_of_append h

/-- C1: the target insertion index of each processed record's column is produced by
the single builder-scoped counter keyed by row name — on success the loop's final
counter state is exactly the fold of `next_idx` over the row names of the whole
stream (all tables alike); the counter maps a row name to its number of occurrences
so far, so the first occurrence yields index 1 and each later occurrence the
incremented count; and `update_column_info` consults the index only when the column
name is not yet registered (when it is registered, only that entry's width is
widened and the index is irrelevant). -/
theorem column_position_counter :
    (∀ (items : List RawCriterionData) (st st' : BState),
      build_loop items st = .ok st' →
      st'.cp = fold_counter st.cp (stream_row_names items)) ∧
    (∀ (rns : List String) (r : String),
      alookup (fold_counter [] rns) r =
        if rns.count r = 0 then none else some (rns.count r)) ∧
    (∀ (rns : List String) (r : String),
      (next_idx (fold_counter [] rns) r).1 = rns.count r + 1) ∧
    (∀ (l : List ColumnInfo) (idx idx2 : Nat) (n : String) (w : Nat),
      has_name l n = true →
      update_column_info l idx n w = some (widen_first l n w) ∧
      update_column_info l idx n w = update_column_info l idx2 n w) ∧
    (∀ (l : List ColumnInfo) (n : String) (w : Nat),
      (widen_first l n w).map (fun ci => ci.name) = l.map fun ci => ci.name) ∧
    (∀ (l : List ColumnInfo) (idx : Nat) (n : String) (w : Nat),
      has_name l n = false →
      update_column_info l idx n w = insertAt l idx (ColumnInfo.new n w)) := by
  have hcount : ∀ (rns : List String) (r : String),
      alookup (fold_counter [] rns) r =
        if rns.count r = 0 then none else some (rns.count r) := by
    intro rns r
    rw [alookup_fold_counter]
    simp [alookup]
  refine ⟨build_loop_cp, hcount, ?_, ?_, widen_first_names, ?_⟩
  · intro rns r
    unfold next_idx
    rw [hcount]
    by_cases h0 : rns.count r = 0 <;> simp [h0]
  · intro l idx idx2 n w hn
    constructor
    · unfold update_column_info
      rw [if_pos hn]
    · unfold update_column_info
      rw [if_pos hn, if_pos hn]
  · intro l idx n w hn
    unfold update_column_info
    rw [if_neg (by simp [hn])]

/-- C8 (amended): in every successfully built table set, every table's column 0 is
the synthetic blank-named label column, and — provided no data column of the table
carries the blank name (a blank column name shares the label column's entry and can
widen it beyond any row name, see the counterexample) — its width equals the maximum
character length among the table's row names. -/
theorem label_column_width_eq :
    ∀ (rs : List RawCriterionData) (d : CriterionTableData),
      CriterionTableData.from_raw rs = .ok d →
      ∀ p ∈ d.tables, (∃ w, p.2.columns.head? = some (ColumnInfo.new "" w)) ∧
        (no_blank_column p.2 → label_width p.2 = max_row_name_len p.2) := by
  intro rs d h p hp
  have hI := from_raw_inv h p hp
  exact ⟨hI.head_blank, hI.label_eq⟩

/-- C9: for every successfully built table set, each GFM cell — header cell, used
cell, unused `N/A` cell, and row-label cell — appends exactly the column's
registered maximum width plus the fixed per-format markup allowance (plus the three
fixed separator characters) to the output buffer, regardless of cell content, so
every column is fixed-width across all rows. -/
theorem gfm_rendering_fixed_width :
    ∀ (rs : List RawCriterionData) (d : CriterionTableData),
      CriterionTableData.from_raw rs = .ok d → gfm_cells_aligned d := by
  intro rs d h p hp
  have hI := from_raw_inv h p hp
  constructor
  · intro ci hci
    have hne : ci.name ≠ "" := tail_names_nonblank hI ci hci
    have hmem : ci ∈ p.2.columns := List.mem_of_mem_drop hci
    refine ⟨fun b => header_cell_length b ci (hI.name_le ci hmem hne),
      fun b => unused_column_length b ci.max_width, ?_⟩
    intro q hq c hc b
    have hmemc : (ci.name, c) ∈ q.2.column_data := alookup_mem hc
    have hwd : Column.width c ≤ ci.max_width := covered_unique hI hq hmemc hmem rfl
    exact used_column_length b c.time_unit c.pct ci.max_width hwd
  · intro q hq b
    have hkey := hI.row_name_key q hq
    have hge := hI.label_ge q hq
    rw [hkey]
    exact start_row_length b q.1 (label_width p.2) hge

/-- C10 (amended): when every benchmark record's identifier has at least two
`/`-separated segments, the build never fails with the malformed-identifier error;
and a benchmark record with fewer than two segments makes the build fail with the
malformed-identifier error naming that record's identifier, provided the records
before it process successfully (an earlier failing record is reported instead, see
the counterexample). -/
theorem malformed_identifier_errors :
    (∀ (rs : List RawCriterionData),
      (∀ bm, RawCriterionData.benchmark bm ∈ rs → 2 ≤ (split_slash bm.id).length) →
      ∀ (e : BuildError) (id : String),
        CriterionTableData.from_raw rs = .error e → e ≠ .malformed_id id) ∧
    (∀ (rs1 : List RawCriterionData) (bm : BenchmarkComplete)
        (rs2 : List RawCriterionData) (st : BState),
      build_loop rs1 init_state = .ok st → (split_slash bm.id).length < 2 →
      CriterionTableData.from_raw (rs1 ++ .benchmark bm :: rs2) =
        .error (.malformed_id bm.id)) := by
  constructor
  · intro rs hids e id h
    unfold CriterionTableData.from_raw at h
    cases hb : build_loop rs init_state with
    | error e2 =>
      rw [hb] at h
      cases h
      exact build_loop_no_malformed rs init_state _ hids hb id
    | ok st => rw [hb] at h; cases h
  · intro rs1 bm rs2 st hok hlen
    have hpn : parse_id bm.id = none := (parse_id_none_iff bm.id).mpr hlen
    unfold CriterionTableData.from_raw
    rw [build_loop_append, hok]
    have hbad : build_loop (RawCriterionData.benchmark bm :: rs2) st =
        .error (.malformed_id bm.id) := by
      simp [build_loop, process_item, hpn]
    simp [hbad]

/-! ## Concrete evaluations of the builder -/

theorem build_loop_sample : build_loop sample_recs init_state = .ok sample_state := by
  have p1 : parse_id "Fib/Recursive/10" = some ("Fib", "Recursive", "10") := by decide
  have p2 : parse_id "Fib/Iterative/10" = some ("Fib", "Iterative", "10") := by decide
  have t1 : TimeUnit.try_new 120 "ns" = .ok (.nanosecond 120) := by decide
  have t2 : TimeUnit.try_new 12 "ns" = .ok (.nanosecond 12) := by decide
  have w1 : Column.width { name := "Recursive", time_unit := .nanosecond 120, pct := 1 } = 14 := by
    norm_num [Column.width, TimeUnit.width, TimeUnit.to_flex_str, TimeUnit.time,
      TimeUnit.unit_label, Comparison.width, Comparison.to_flex_str, fmt2dec, round_eq]
    decide
  have w2 : Column.width { name := "Iterative", time_unit := .nanosecond 12, pct := 10 } = 21 := by
    norm_num [Column.width, TimeUnit.width, TimeUnit.to_flex_str, TimeUnit.time,
      TimeUnit.unit_label, Comparison.width, Comparison.to_flex_str, fmt2dec, round_eq]
    decide
  have d1 : TimeUnit.div (.nanosecond 120) (.nanosecond 12) = 10 := by
    norm_num [TimeUnit.div, TimeUnit.as_picoseconds]
  have l1 : ("10" : String).length = 2 := by decide
  have l2 : ("Recursive" : String).length = 9 := by decide
  have l3 : ("Iterative" : String).length = 9 := by decide
  have l4 : ("" : String).length = 0 := by decide
  simp [build_loop, process_item, p1, p2, t1, t2, next_idx, alookup,
    Table.add_column_data, update_column_info, has_name, widen_first, insertAt,
    Row.add_column, Row.first_column_time, Column.new, w1, w2, d1, l1, l2, l3, l4,
    updateOrAppend, Table.new, Row.new, ColumnInfo.new, ColumnInfo.update_info,
    init_state, Nat.max_def, sample_recs, sample_state, sample_table, sample_data,
    mk_bench]

theorem from_raw_sample : CriterionTableData.from_raw sample_recs = .ok sample_data := by
  unfold CriterionTableData.from_raw
  rw [build_loop_sample]
  rfl

/-- C2: the builder is not total — on `panic_recs` the out-of-bounds `Vec::insert`
in `ColumnInfoVec::update_column_info` is reached (modelled as the distinguished
`panic_oob` outcome): the third record's insertion index 3 exceeds table `U`'s
column-list length 1, so `CriterionTableData::from_raw` panics rather than
returning a table set or an ordinary build error. -/
theorem builder_panics_on_counter_overflow :
    CriterionTableData.from_raw panic_recs = .error .panic_oob := by
  have p1 : parse_id "T/A/r" = some ("T", "A", "r") := by decide
  have p2 : parse_id "T/B/r" = some ("T", "B", "r") := by decide
  have p3 : parse_id "U/C/r" = some ("U", "C", "r") := by decide
  have t1 : TimeUnit.try_new 1 "ns" = .ok (.nanosecond 1) := by decide
  have w1 : Column.width { name := "A", time_unit := .nanosecond 1, pct := 1 } = 12 := by
    norm_num [Column.width, TimeUnit.width, TimeUnit.to_flex_str, TimeUnit.time,
      TimeUnit.unit_label, Comparison.width, Comparison.to_flex_str, fmt2dec, round_eq]
    decide
  have w2 : Column.width { name := "B", time_unit := .nanosecond 1, pct := 1 } = 12 := by
    norm_num [Column.width, TimeUnit.width, TimeUnit.to_flex_str, TimeUnit.time,
      TimeUnit.unit_label, Comparison.width, Comparison.to_flex_str, fmt2dec, round_eq]
    decide
  have w3 : Column.width { name := "C", time_unit := .nanosecond 1, pct := 1 } = 12 := by
    norm_num [Column.width, TimeUnit.width, TimeUnit.to_flex_str, TimeUnit.time,
      TimeUnit.unit_label, Comparison.width, Comparison.to_flex_str, fmt2dec, round_eq]
    decide
  have d1 : TimeUnit.div (.nanosecond 1) (.nanosecond 1) = 1 := by
    norm_num [TimeUnit.div, TimeUnit.as_picoseconds]
  have l1 : ("r" : String).length = 1 := by decide
  have l2 : ("A" : String).length = 1 := by decide
  have l3 : ("B" : String).length = 1 := by decide
  have l4 : ("C" : String).length = 1 := by decide
  have l5 : ("" : String).length = 0 := by decide
  simp [CriterionTableData.from_raw, build_loop, process_item, p1, p2, p3, t1,
    next_idx, alookup, Table.add_column_data, update_column_info, has_name,
    widen_first, insertAt, Row.add_column, Row.first_column_time, Column.new,
    w1, w2, w3, d1, l1, l2, l3, l4, l5, updateOrAppend, Table.new, Row.new,
    ColumnInfo.new, ColumnInfo.update_info, init_state, Nat.max_def, panic_recs,
    mk_bench]

theorem from_raw_blankcol : CriterionTableData.from_raw blankcol_recs = .ok blankcol_data := by
  have p1 : parse_id "T//r" = some ("T", "", "r") := by decide
  have t1 : TimeUnit.try_new 1 "ns" = .ok (.nanosecond 1) := by decide
  have w1 : Column.width { name := "", time_unit := .nanosecond 1, pct := 1 } = 12 := by
    norm_num [Column.width, TimeUnit.width, TimeUnit.to_flex_str, TimeUnit.time,
      TimeUnit.unit_label, Comparison.width, Comparison.to_flex_str, fmt2dec, round_eq]
    decide
  have l1 : ("r" : String).length = 1 := by decide
  have l2 : ("" : String).length = 0 := by decide
  simp [CriterionTableData.from_raw, build_loop, process_item, p1, t1,
    next_idx, alookup, Table.add_column_data, update_column_info, has_name,
    widen_first, insertAt, Row.add_column, Row.first_column_time, Column.new,
    w1, l1, l2, updateOrAppend, Table.new, Row.new, ColumnInfo.new,
    ColumnInfo.update_info, init_state, Nat.max_def, blankcol_recs, blankcol_table,
    blankcol_data, mk_bench]

/-- C8 counterexample: `blankcol_recs` builds successfully, but the label column's
width is 12 while the longest row name has length 1 — the claimed equality fails when
a data column carries the blank name. -/
theorem label_column_width_counterexample :
    CriterionTableData.from_raw blankcol_recs = .ok blankcol_data ∧
    label_width blankcol_table = 12 ∧ max_row_name_len blankcol_table = 1 ∧
    label_width blankcol_table ≠ max_row_name_len blankcol_table :=
  ⟨from_raw_blankcol, rfl, rfl, by decide⟩

/-- C10 counterexample: `masked_recs` contains a benchmark record whose identifier
"bad" has a single segment, yet the build fails with the *unrecognized-unit* error of
the earlier record, not with a malformed-identifier error naming "bad". -/
theorem malformed_identifier_counterexample :
    CriterionTableData.from_raw masked_recs = .error (.unrecognized_unit "xs") ∧
    RawCriterionData.benchmark bad_bench ∈ masked_recs ∧
    (split_slash bad_bench.id).length < 2 ∧
    BuildError.unrecognized_unit "xs" ≠ BuildError.malformed_id bad_bench.id :=
  ⟨by decide, by decide, by decide, by decide⟩

/-! ## Witnesses -/

theorem column_position_counter_witness :
    sample_state.cp = fold_counter init_state.cp (stream_row_names sample_recs) ∧
    update_column_info [ColumnInfo.new "A" 3] 0 "A" 5 =
      some (widen_first [ColumnInfo.new "A" 3] "A" 5) ∧
    update_column_info [ColumnInfo.new "A" 3] 2 "B" 5 =
      insertAt [ColumnInfo.new "A" 3] 2 (ColumnInfo.new "B" 5) :=
  ⟨column_position_counter.1 sample_recs init_state sample_state build_loop_sample,
    (column_position_counter.2.2.2.1 [ColumnInfo.new "A" 3] 0 7 "A" 5 (by decide)).1,
    column_position_counter.2.2.2.2.2 [ColumnInfo.new "A" 3] 2 "B" 5 (by decide)⟩

theorem comparison_derived_witness :
    CriterionTableData.from_raw sample_recs = .ok sample_data ∧
    comparisons_derived sample_data :=
  ⟨from_raw_sample,
    comparison_derived_from_row_first_column sample_recs sample_data from_raw_sample⟩

theorem try_new_normalizes_witness :
    TimeUnit.try_new 5 "xs" = .error (.unrecognized_unit "xs") :=
  try_new_normalizes.2.2.2.2.2 5 "xs" (by decide)

theorem comparison_rendering_witness :
    Comparison.to_flex_str 2 = fmt2dec 2 ++ "x faster" ∧
    Comparison.to_flex_str (1 / 2) = fmt2dec (1 / (1 / 2)) ++ "x slower" ∧
    Comparison.to_flex_str 1 = fmt2dec 1 ++ "x" :=
  ⟨(comparison_rendering_total.1 2).1 (by norm_num),
    (comparison_rendering_total.1 (1 / 2)).2.1 (by norm_num),
    (comparison_rendering_total.1 1).2.2 rfl⟩

theorem try_new_idempotent_witness :
    TimeUnit.try_new (TimeUnit.nanosecond 120).time
      (TimeUnit.nanosecond 120).unit_label = .ok (.nanosecond 120) :=
  try_new_idempotent 120 "ns" (.nanosecond 120) (by decide)

theorem column_widths_witness :
    (CriterionTableData.from_raw sample_recs = .ok sample_data ∧ widths_ok sample_data) ∧
    (∃ d1, CriterionTableData.from_raw [mk_bench "Fib/Recursive/10" 120 "ns"] = .ok d1) :=
  ⟨⟨from_raw_sample, column_widths_dominate.1 sample_recs sample_data from_raw_sample⟩,
    column_widths_dominate.2 [mk_bench "Fib/Recursive/10" 120 "ns"]
      [mk_bench "Fib/Iterative/10" 12 "ns"] sample_data from_raw_sample⟩

theorem label_column_width_witness :
    CriterionTableData.from_raw sample_recs = .ok sample_data ∧
    label_width sample_table = max_row_name_len sample_table :=
  ⟨from_raw_sample,
    (label_column_width_eq sample_recs sample_data from_raw_sample ("Fib", sample_table)
      (List.mem_singleton.mpr rfl)).2 (by unfold no_blank_column; decide)⟩

theorem gfm_rendering_witness :
    CriterionTableData.from_raw sample_recs = .ok sample_data ∧
    gfm_cells_aligned sample_data :=
  ⟨from_raw_sample, gfm_rendering_fixed_width sample_recs sample_data from_raw_sample⟩

theorem malformed_identifier_witness :
    BuildError.unrecognized_unit "xs" ≠ BuildError.malformed_id "A/B" ∧
    CriterionTableData.from_raw ([] ++ RawCriterionData.benchmark bad_bench :: []) =
      .error (.malformed_id "bad") :=
  ⟨malformed_identifier_errors.1 unit_err_recs
      (by
        intro bm hbm
        simp only [unit_err_recs, mk_bench, List.mem_singleton] at hbm
        cases hbm
        decide)
      (.unrecognized_unit "xs") "A/B" (by decide),
    malformed_identifier_errors.2 [] bad_bench [] init_state rfl (by decide)⟩

end CT
